import Mathlib

set_option maxRecDepth 8000

/-!
Verification of the content-repurposing pipeline: text segmentation,
prompt templating and the resilient generation client.

Strings are modelled through their character lists: Python `str.strip`,
`str.split`, the `in` substring test, `str.lower` and `str.format` field
substitution are embedded as executable functions over `List Char`,
so that every definition evaluates inside the kernel.  The remote
generation backend and the model-discovery call are effects of the
Python code; they are modelled as explicit function parameters, and
`generate_text` additionally returns the list of models it actually
invoked, mirroring the calls the source performs.
-/

/-- Whitespace test used by the embedded string operations (Python treats
a few more exotic Unicode spaces as whitespace; the claims only involve
ASCII whitespace, where the two notions agree). -/
def isWsC (c : Char) : Bool := c.isWhitespace

/-- Python `str.strip`: drop leading and trailing whitespace characters. -/
def stripL (l : List Char) : List Char :=
  ((l.dropWhile isWsC).reverse.dropWhile isWsC).reverse

/-- Python `str.strip` on strings. -/
def pyStrip (s : String) : String := String.mk (stripL s.data)

/-- Python `str.lower` (ASCII case folding, which covers every message the
claims mention). -/
def lowerL (l : List Char) : List Char := l.map Char.toLower

/-- Does the needle occur as a leading run of the haystack? -/
def chStarts : List Char → List Char → Bool
  | [], _ => true
  | _ :: _, [] => false
  | a :: as, b :: bs => a == b && chStarts as bs

/-- Python `needle in hay` substring test. -/
def chHas (needle : List Char) : List Char → Bool
  | [] => chStarts needle []
  | c :: rest => chStarts needle (c :: rest) || chHas needle rest

/-- Python `sep.join(pieces)`. -/
def joinSep (sep : List Char) : List (List Char) → List Char
  | [] => []
  | [x] => x
  | x :: y :: rest => x ++ sep ++ joinSep sep (y :: rest)

namespace GeminiConnector

/-- Response shape returned by the generation backend: an optional
top-level text field plus an optional candidate list, each candidate
carrying the texts of its parts in order (parts without a text field
contribute nothing in the source and are therefore not represented). -/
structure GenResponse where
  text : Option String
  candidates : Option (List (List String))
  deriving DecidableEq

/-- Outcome of one `model.generate_content(prompt)` call: a response, or a
raised exception carrying its message string. -/
inductive CallOutcome where
  | ok (r : GenResponse)
  | exn (msg : String)
  deriving DecidableEq

/-- The remote generation backend, as a function from (model name, prompt)
to the outcome of the call. -/
abbrev Backend := String → String → CallOutcome

/-- Mutable state of one client: the ordered candidate model list and the
index of the model currently in use. -/
structure ClientState where
  model_names : List String
  current_model_index : Nat
  deriving DecidableEq

/-- Name of the model the client currently uses. -/
def current_model (s : ClientState) : String :=
  s.model_names.getD s.current_model_index ""

/-- `GeminiConnector._switch_to_next_model`: advance to the next candidate
when one exists, reporting whether the switch happened. -/
def switch_to_next_model (s : ClientState) : Bool × ClientState :=
  if s.current_model_index + 1 < s.model_names.length then
    (true, { s with current_model_index := s.current_model_index + 1 })
  else
    (false, s)

/-- Failure classification from `generate_text`: `"404" in message or
"not found" in message.lower() or "not supported" in message.lower()`. -/
def is_not_found_message (msg : String) : Bool :=
  chHas "404".data msg.data ||
    chHas "not found".data (lowerL msg.data) ||
    chHas "not supported".data (lowerL msg.data)

/-- Response-text extraction at the end of `generate_text`: prefer a
non-empty top-level text field, otherwise join the candidate part texts
with newlines, then strip the result (Python `(text or "").strip()`). -/
def extract_text (r : GenResponse) : String :=
  let t0 : String := r.text.getD ""
  let t1 : String :=
    if t0 = "" then
      match r.candidates with
      | some cs => String.mk (joinSep ['\n'] ((cs.flatten).map String.data))
      | none => t0
    else t0
  pyStrip t1

/-- Tip text appended to non-retried failures:
`", ".join(discovered[:10]) or "(none discovered)"`, with
`"(unavailable)"` when discovery itself raised. -/
def tipOf : Option (List String) → String
  | none => "(unavailable)"
  | some names =>
    let j := String.mk (joinSep ", ".data ((names.take 10).map String.data))
    if j = "" then "(none discovered)" else j

/-- `GeminiConnector.generate_text`.  Besides the returned string and the
updated client state, the embedding records the list of model names the
call actually invoked on the backend, in order. -/
def generate_text (backend : Backend) (discovered : Option (List String))
    (s : ClientState) (prompt : String) : String × ClientState × List String :=
  if pyStrip prompt = "" then ("", s, [])
  else
    let m0 := current_model s
    match backend m0 prompt with
    | .ok r => (extract_text r, s, [m0])
    | .exn msg =>
      let sw := switch_to_next_model s
      if is_not_found_message msg && sw.1 then
        let m1 := current_model sw.2
        match backend m1 prompt with
        | .ok r => (extract_text r, sw.2, [m0, m1])
        | .exn msg2 => ("Error generating content: " ++ msg2, sw.2, [m0, m1])
      else
        ("Error generating content: " ++ msg ++
            "\nTip: Set GEMINI_MODEL to one of: " ++ tipOf discovered,
          s, [m0])

/-- Sequential generation over the prompt list of one platform, threading
the client state (the list comprehension inside `GeminiConnector.generate`). -/
def generate_over_prompts (backend : Backend) (discovered : Option (List String)) :
    ClientState → List String → List String × ClientState
  | s, [] => ([], s)
  | s, p :: ps =>
    let r := generate_text backend discovered s p
    let rest := generate_over_prompts backend discovered r.2.1 ps
    (r.1 :: rest.1, rest.2)

/-- `GeminiConnector.generate`: run every platform's prompts in order,
threading the client state across the whole batch. -/
def generate (backend : Backend) (discovered : Option (List String)) :
    ClientState → List (String × List String) → List (String × List String) × ClientState
  | s, [] => ([], s)
  | s, (platform, prompts) :: rest =>
    let r := generate_over_prompts backend discovered s prompts
    let rr := generate backend discovered r.2 rest
    ((platform, r.1) :: rr.1, rr.2)

/-- `GeminiConnector.combine_segment_outputs`: strip each output, drop the
ones that become empty, join the survivors with a blank line. -/
def combine_segment_outputs (outputs : List String) : String :=
  let cleaned := (outputs.filter (fun s => pyStrip s ≠ "")).map pyStrip
  String.mk (joinSep "\n\n".data (cleaned.map String.data))

end GeminiConnector

/-- Word counter state machine over characters: counts maximal
non-whitespace runs, matching `len(text.split())`. -/
def wcAux : List Char → Bool → Nat
  | [], _ => 0
  | c :: rest, inWord =>
    if isWsC c then wcAux rest false
    else (if inWord then 0 else 1) + wcAux rest true

/-- Number of whitespace-delimited word tokens of a character list. -/
def wcL (l : List Char) : Nat := wcAux l false

/-- Word counter of `segmentation.py`.  The source first tries the NLTK
`word_tokenize` tokenizer, an external locale-dependent resource, and
falls back to basic whitespace tokenization when it is unavailable; per
spec sections 4.1 and 9 the deterministic whitespace fallback is the
modelled counting rule. -/
def word_count (s : String) : Nat := wcL s.data

/-- Default minimum segment size from `segmentation.py`. -/
def MIN_WORDS_PER_SEGMENT : Nat := 100

/-- Python split on the two-character blank-line separator, leftmost and
non-overlapping, keeping empty pieces. -/
def splitNN : List Char → List (List Char)
  | [] => [[]]
  | [c] => [[c]]
  | c :: d :: rest =>
    if c = '\n' ∧ d = '\n' then [] :: splitNN rest
    else
      match splitNN (d :: rest) with
      | [] => [[c]]
      | p :: ps => (c :: p) :: ps

/-- Candidate paragraphs: split on blank lines, strip each piece, keep
only the pieces that strip to something non-empty. -/
def segParagraphs (text : List Char) : List (List Char) :=
  ((splitNN text).filter (fun s => stripL s ≠ [])).map stripL

/-- `flush_buffer` of `split_into_segments`: append the stripped buffer as
a segment when it strips to something non-empty, and only then reset the
buffer. -/
def flushB (segs : List (List Char)) (buffer : List Char) :
    List (List Char) × List Char :=
  if stripL buffer ≠ [] then (segs ++ [stripL buffer], []) else (segs, buffer)

/-- Paragraph walk of `split_into_segments`: a paragraph meeting the
minimum is emitted on its own after flushing any pending buffer; shorter
paragraphs accumulate into the buffer, which is flushed as soon as it
reaches the minimum, and once more at the end of input. -/
def segLoop (min_words : Nat) : List (List Char) → List (List Char) → List Char → List (List Char)
  | [], segs, buffer => (flushB segs buffer).1
  | p :: ps, segs, buffer =>
    if min_words ≤ wcL p then
      let fb := if buffer ≠ [] then flushB segs buffer else (segs, buffer)
      segLoop min_words ps (fb.1 ++ [p]) fb.2
    else
      let buffer2 := stripL (buffer ++ '\n' :: '\n' :: p)
      if min_words ≤ wcL buffer2 then
        let fb := flushB segs buffer2
        segLoop min_words ps fb.1 fb.2
      else
        segLoop min_words ps segs buffer2

/-- `split_into_segments` over character lists. -/
def splitIntoSegsL (text : List Char) (min_words : Nat) : List (List Char) :=
  let paragraphs := segParagraphs text
  if paragraphs = [] then [] else segLoop min_words paragraphs [] []

/-- `split_into_segments(text, min_words)` from `segmentation.py`. -/
def split_into_segments (text : String) (min_words : Nat) : List String :=
  (splitIntoSegsL text.data min_words).map String.mk

/-- Python `dict.get` over an association list (insertion order kept). -/
def lookupKey {α : Type} : List (String × α) → String → Option α
  | [], _ => none
  | (a, b) :: rest, k => if a = k then some b else lookupKey rest k

/-- `TONES` from `templates.py`: display label to internal key. -/
def TONES : List (String × String) :=
  [("Professional", "professional"), ("Casual", "casual"), ("Promotional", "promotional")]

/-- `PLATFORMS` from `templates.py`: display label to internal key. -/
def PLATFORMS : List (String × String) :=
  [("LinkedIn", "linkedin"), ("Instagram", "instagram"), ("YouTube", "youtube")]

/-- `TEMPLATES` from `templates.py`: platform key to tone key to prompt
template (Python adjacent string literals concatenated). -/
def TEMPLATES : List (String × List (String × String)) :=
  [ ("linkedin",
      [ ("professional",
          "Rewrite the following text as a professional LinkedIn post of about 100–120 words. Use a formal, business-oriented tone suitable for industry professionals. Keep language precise, objective, and informative. Avoid emojis or slang. Emphasize key insights and end with a reflective question or thought-provoking statement.\n\nContent:\n{content}"),
        ("casual",
          "Rewrite the following text as a casual and engaging LinkedIn post (100–120 words). Use friendly, conversational language with occasional emojis and rhetorical questions. Make it sound like a personal insight shared by a professional, not a corporate statement.\n\nContent:\n{content}"),
        ("promotional",
          "Rewrite the following text as a promotional LinkedIn post (100–120 words). Use energetic, persuasive language focused on benefits and innovation. Encourage readers to take action or reflect on future opportunities. Add 3–5 relevant professional hashtags at the end.\n\nContent:\n{content}")]),
    ("instagram",
      [ ("professional",
          "Create two short Instagram captions (under 80 words each) from the following content in a professional tone. Keep them polished but engaging. Avoid slang, keep one emoji if relevant, and include 3–5 professional hashtags.\n\nContent:\n{content}"),
        ("casual",
          "Create two Instagram captions (under 80 words each) using a casual, relatable tone. Use emojis, fun expressions, and hashtags that connect with the audience. Make it sound like a friendly, upbeat post from a creative marketer.\n\nContent:\n{content}"),
        ("promotional",
          "Write two catchy Instagram captions promoting this topic. Use exciting language, emojis, and 4–6 marketing hashtags. Focus on calls-to-action or benefits while keeping captions short and shareable.\n\nContent:\n{content}")]),
    ("youtube",
      [ ("professional",
          "Write a 30-second YouTube Shorts script summarizing the following content in a professional tone. Use a confident, clear, and informative delivery style suitable for business or educational audiences. Avoid slang or excessive emotion.\n\nContent:\n{content}"),
        ("casual",
          "Write a 30-second YouTube Shorts script using a casual, energetic tone. Start with a catchy hook question or fun statement. Use conversational words and light humor to keep it engaging.\n\nContent:\n{content}"),
        ("promotional",
          "Write a short, high-energy YouTube Shorts script (around 30 seconds) promoting this topic. Use persuasive, motivational language with a clear call-to-action at the end. Start with a powerful hook to grab attention.\n\nContent:\n{content}")])]

/-- One pass of Python format-field substitution: scan left to right,
replace each occurrence of the pattern, never rescanning substituted
text; the fuel argument bounds the scan by the input length. -/
def substF (pat sub : List Char) : Nat → List Char → List Char
  | _, [] => []
  | 0, l => l
  | fuel + 1, c :: rest =>
    if chStarts pat (c :: rest) && !pat.isEmpty then
      sub ++ substF pat sub fuel (rest.drop (pat.length - 1))
    else
      c :: substF pat sub fuel rest

/-- Replace every leftmost, non-overlapping occurrence of `pat` by `sub`. -/
def substL (pat sub l : List Char) : List Char := substF pat sub l.length l

/-- Python `template.format(tone=..., content=...)` for templates whose
only fields are the tone and content parameters: substitute the tone
field, then the content field. -/
def formatTemplate (tmpl tone content : String) : String :=
  String.mk (substL "{content}".data content.data (substL "{tone}".data tone.data tmpl.data))

/-- State of a constructed `PromptBuilder`. -/
structure PromptBuilder where
  tone_key : String
  platform_ids : List String
  deriving DecidableEq

/-- `PromptBuilder._resolve_platforms`: map display labels to platform
keys, failing on the first unknown label. -/
def resolve_platforms : List String → Except String (List String)
  | [] => .ok []
  | label :: rest =>
    match lookupKey PLATFORMS label with
    | none => .error ("Unsupported platform: " ++ label)
    | some pid =>
      match resolve_platforms rest with
      | .error e => .error e
      | .ok pids => .ok (pid :: pids)

/-- `PromptBuilder.__init__`: validate the tone display label, then
resolve the platform labels. -/
def PromptBuilder.make (tone_display : String) (platform_labels : List String) :
    Except String PromptBuilder :=
  match lookupKey TONES tone_display with
  | none => .error ("Unsupported tone: " ++ tone_display)
  | some tone_key =>
    match resolve_platforms platform_labels with
    | .error e => .error e
    | .ok pids => .ok { tone_key := tone_key, platform_ids := pids }

/-- Python dict assignment: replace in place when the key exists,
otherwise append, keeping insertion order. -/
def dictSet {α : Type} (d : List (String × α)) (k : String) (v : α) : List (String × α) :=
  if d.any (fun e => e.1 = k) then
    d.map (fun e => if e.1 = k then (k, v) else e)
  else d ++ [(k, v)]

/-- Prompt list built for one platform: one prompt per segment that is
non-empty after stripping, in segment order, with the stripped segment
substituted for the content parameter. -/
def promptsFor (tmpl tone_key : String) (segments : List String) : List String :=
  (segments.filter (fun seg => pyStrip seg ≠ "")).map
    (fun seg => formatTemplate tmpl tone_key (pyStrip seg))

/-- Iteration of `build_prompts` over the resolved platform ids. -/
def buildPromptsGo (tone_key : String) (segments : List String) :
    List String → List (String × List String) → Except String (List (String × List String))
  | [], acc => .ok acc
  | pid :: rest, acc =>
    match lookupKey TEMPLATES pid with
    | none => .error ("KeyError: " ++ pid)
    | some template_map =>
      match lookupKey template_map tone_key with
      | none =>
        .error ("Tone \x27" ++ tone_key ++ "\x27 is not defined for platform \x27" ++ pid ++ "\x27.")
      | some tmpl =>
        buildPromptsGo tone_key segments rest (dictSet acc pid (promptsFor tmpl tone_key segments))

/-- `PromptBuilder.build_prompts`. -/
def PromptBuilder.build_prompts (pb : PromptBuilder) (segments : List String) :
    Except String (List (String × List String)) :=
  buildPromptsGo pb.tone_key segments pb.platform_ids []


namespace GeminiConnector

theorem generate_text_of_ok (backend : Backend) (disc : Option (List String))
    (s : ClientState) (prompt : String) (r : GenResponse)
    (hp : pyStrip prompt ≠ "") (hb : backend (current_model s) prompt = .ok r) :
    generate_text backend disc s prompt = (extract_text r, s, [current_model s]) := by
  unfold generate_text
  dsimp only
  rw [if_neg hp, hb]

theorem generate_text_of_exn_retry (backend : Backend) (disc : Option (List String))
    (s : ClientState) (prompt msg : String)
    (hp : pyStrip prompt ≠ "") (hb : backend (current_model s) prompt = .exn msg)
    (hnf : is_not_found_message msg = true)
    (hlt : s.current_model_index + 1 < s.model_names.length) :
    generate_text backend disc s prompt =
      (match backend (s.model_names.getD (s.current_model_index + 1) "") prompt with
        | .ok r => (extract_text r, { s with current_model_index := s.current_model_index + 1 },
            [current_model s, s.model_names.getD (s.current_model_index + 1) ""])
        | .exn msg2 => ("Error generating content: " ++ msg2,
            { s with current_model_index := s.current_model_index + 1 },
            [current_model s, s.model_names.getD (s.current_model_index + 1) ""])) := by
  unfold generate_text switch_to_next_model
  dsimp only
  rw [if_neg hp, hb]
  have hcm : current_model { s with current_model_index := s.current_model_index + 1 } =
      s.model_names.getD (s.current_model_index + 1) "" := rfl
  cases hb2 : backend (s.model_names.getD (s.current_model_index + 1) "") prompt with
  | ok r =>
    simp only [hnf, if_pos hlt, Bool.true_and, if_true, hcm, hb2]
  | exn m2 =>
    simp only [hnf, if_pos hlt, Bool.true_and, if_true, hcm, hb2]

theorem generate_text_of_exn_noretry (backend : Backend) (disc : Option (List String))
    (s : ClientState) (prompt msg : String)
    (hp : pyStrip prompt ≠ "") (hb : backend (current_model s) prompt = .exn msg)
    (hc : is_not_found_message msg = false ∨ ¬ s.current_model_index + 1 < s.model_names.length) :
    generate_text backend disc s prompt =
      ("Error generating content: " ++ msg ++
          "\nTip: Set GEMINI_MODEL to one of: " ++ tipOf disc, s, [current_model s]) := by
  unfold generate_text switch_to_next_model
  dsimp only
  rw [if_neg hp, hb]
  rcases hc with hc | hc
  · simp [hc]
  · simp [if_neg hc]

end GeminiConnector

namespace GeminiConnector

theorem generate_text_empty (backend : Backend) (disc : Option (List String))
    (s : ClientState) (prompt : String) (h : pyStrip prompt = "") :
    generate_text backend disc s prompt = ("", s, []) := by
  rw [generate_text, if_pos h]

theorem bool_ne_true {b : Bool} (h : ¬ b = true) : b = false := by
  cases b
  · rfl
  · exact absurd rfl h

theorem generate_text_attempts_near (backend : Backend) (disc : Option (List String))
    (s : ClientState) (prompt : String) :
    ∀ m ∈ (generate_text backend disc s prompt).2.2,
      m = current_model s ∨ m = s.model_names.getD (s.current_model_index + 1) "" := by
  intro m hm
  by_cases hp : pyStrip prompt = ""
  · rw [generate_text_empty backend disc s prompt hp] at hm
    exact absurd hm (List.not_mem_nil m)
  · cases hb : backend (current_model s) prompt with
    | ok r =>
      rw [generate_text_of_ok backend disc s prompt r hp hb] at hm
      simp only [List.mem_singleton] at hm
      exact Or.inl hm
    | exn msg =>
      by_cases hnf : is_not_found_message msg = true
      · by_cases hlt : s.current_model_index + 1 < s.model_names.length
        · rw [generate_text_of_exn_retry backend disc s prompt msg hp hb hnf hlt] at hm
          cases hb2 : backend (s.model_names.getD (s.current_model_index + 1) "") prompt with
          | ok r =>
            rw [hb2] at hm
            simp only [List.mem_cons, List.mem_singleton] at hm
            rcases hm with hm | hm | hm
            · exact Or.inl hm
            · exact Or.inr hm
            · exact absurd hm (List.not_mem_nil m)
          | exn m2 =>
            rw [hb2] at hm
            simp only [List.mem_cons, List.mem_singleton] at hm
            rcases hm with hm | hm | hm
            · exact Or.inl hm
            · exact Or.inr hm
            · exact absurd hm (List.not_mem_nil m)
        · rw [generate_text_of_exn_noretry backend disc s prompt msg hp hb (Or.inr hlt)] at hm
          simp only [List.mem_singleton] at hm
          exact Or.inl hm
      · rw [generate_text_of_exn_noretry backend disc s prompt msg hp hb
            (Or.inl (bool_ne_true hnf))] at hm
        simp only [List.mem_singleton] at hm
        exact Or.inl hm

theorem generate_text_state_step (backend : Backend) (disc : Option (List String))
    (s : ClientState) (prompt : String) :
    (generate_text backend disc s prompt).2.1 = s ∨
    ((generate_text backend disc s prompt).2.1 =
        { s with current_model_index := s.current_model_index + 1 } ∧
      s.current_model_index + 1 < s.model_names.length) := by
  by_cases hp : pyStrip prompt = ""
  · left; rw [generate_text_empty backend disc s prompt hp]
  · cases hb : backend (current_model s) prompt with
    | ok r => left; rw [generate_text_of_ok backend disc s prompt r hp hb]
    | exn msg =>
      by_cases hnf : is_not_found_message msg = true
      · by_cases hlt : s.current_model_index + 1 < s.model_names.length
        · right
          refine ⟨?_, hlt⟩
          rw [generate_text_of_exn_retry backend disc s prompt msg hp hb hnf hlt]
          cases backend (s.model_names.getD (s.current_model_index + 1) "") prompt <;> rfl
        · left; rw [generate_text_of_exn_noretry backend disc s prompt msg hp hb (Or.inr hlt)]
      · left
        rw [generate_text_of_exn_noretry backend disc s prompt msg hp hb
          (Or.inl (bool_ne_true hnf))]

theorem generate_text_index_le (backend : Backend) (disc : Option (List String))
    (s : ClientState) (prompt : String) :
    s.current_model_index ≤ (generate_text backend disc s prompt).2.1.current_model_index ∧
    (generate_text backend disc s prompt).2.1.current_model_index ≤ s.current_model_index + 1 ∧
    (generate_text backend disc s prompt).2.1.model_names = s.model_names := by
  rcases generate_text_state_step backend disc s prompt with h | h
  · rw [h]; exact ⟨Nat.le_refl _, Nat.le_succ _, rfl⟩
  · rw [h.1]; exact ⟨Nat.le_succ _, Nat.le_refl _, rfl⟩

theorem generate_over_prompts_index_le (backend : Backend) (disc : Option (List String)) :
    ∀ (prompts : List String) (s : ClientState),
      s.current_model_index ≤ (generate_over_prompts backend disc s prompts).2.current_model_index := by
  intro prompts
  induction prompts with
  | nil => intro s; exact Nat.le_refl _
  | cons p ps ih =>
    intro s
    have h1 := (generate_text_index_le backend disc s p).1
    have h2 := ih (generate_text backend disc s p).2.1
    simp only [generate_over_prompts]
    exact Nat.le_trans h1 h2

theorem generate_index_le (backend : Backend) (disc : Option (List String)) :
    ∀ (batch : List (String × List String)) (s : ClientState),
      s.current_model_index ≤ (generate backend disc s batch).2.current_model_index := by
  intro batch
  induction batch with
  | nil => intro s; exact Nat.le_refl _
  | cons e rest ih =>
    intro s
    obtain ⟨platform, prompts⟩ := e
    have h1 := generate_over_prompts_index_le backend disc prompts s
    have h2 := ih (generate_over_prompts backend disc s prompts).2
    simp only [generate]
    exact Nat.le_trans h1 h2

end GeminiConnector

theorem data_append (a b : String) : (a ++ b).data = a.data ++ b.data := rfl

theorem chStarts_self_append (n t : List Char) : chStarts n (n ++ t) = true := by
  induction n with
  | nil => simp [chStarts]
  | cons a as ih => simp [chStarts, ih]

theorem chHas_of_append (x n y : List Char) : chHas n (x ++ (n ++ y)) = true := by
  induction x with
  | nil =>
    cases n with
    | nil => cases y <;> simp [chHas, chStarts]
    | cons a as =>
      have h := chStarts_self_append (a :: as) y
      simp only [List.cons_append] at h
      simp [chHas, h]
  | cons c rest ih =>
    simp [chHas, ih]

theorem filter_map_strip (outputs : List String) :
    (outputs.filter (fun s => pyStrip s ≠ "")).map pyStrip =
      (outputs.map pyStrip).filter (fun s => s ≠ "") := by
  induction outputs with
  | nil => rfl
  | cons a t ih =>
    simp only [List.map_cons, List.filter_cons]
    by_cases h : pyStrip a = ""
    · rw [if_neg (by simpa using h), if_neg (by simpa using h)]
      exact ih
    · rw [if_pos (by simpa using h), if_pos (by simpa using h)]
      rw [List.map_cons, ih]

/-- C1: when the current candidate fails with a not-found-classified error
and a next candidate exists, `generate_text` advances the model index,
retries the same prompt once against the next candidate, and on success
returns that candidate's extracted result; every backend call a
subsequent `generate_text` on the returned state performs targets a
candidate index at least one past the failing candidate. -/
theorem claim_c1_model_fallback
    (backend : GeminiConnector.Backend) (disc : Option (List String))
    (s : GeminiConnector.ClientState) (prompt msg : String)
    (r : GeminiConnector.GenResponse)
    (hp : pyStrip prompt ≠ "")
    (hfail : backend (GeminiConnector.current_model s) prompt = .exn msg)
    (hclass : GeminiConnector.is_not_found_message msg = true)
    (hnext : s.current_model_index + 1 < s.model_names.length)
    (hok : backend (s.model_names.getD (s.current_model_index + 1) "") prompt = .ok r) :
    GeminiConnector.generate_text backend disc s prompt =
      (GeminiConnector.extract_text r,
        { s with current_model_index := s.current_model_index + 1 },
        [GeminiConnector.current_model s,
          s.model_names.getD (s.current_model_index + 1) ""]) ∧
    (∀ p2 m, m ∈ (GeminiConnector.generate_text backend disc
        (GeminiConnector.generate_text backend disc s prompt).2.1 p2).2.2 →
      ∃ k, s.current_model_index + 1 ≤ k ∧ m = s.model_names.getD k "") := by
  have hfull : GeminiConnector.generate_text backend disc s prompt =
      (GeminiConnector.extract_text r,
        { s with current_model_index := s.current_model_index + 1 },
        [GeminiConnector.current_model s,
          s.model_names.getD (s.current_model_index + 1) ""]) := by
    rw [GeminiConnector.generate_text_of_exn_retry backend disc s prompt msg hp hfail hclass
      hnext, hok]
  refine ⟨hfull, ?_⟩
  intro p2 m hm
  rw [hfull] at hm
  have hnear := GeminiConnector.generate_text_attempts_near backend disc
    { s with current_model_index := s.current_model_index + 1 } p2 m hm
  rcases hnear with h | h
  · exact ⟨s.current_model_index + 1, Nat.le_refl _, h⟩
  · exact ⟨s.current_model_index + 2, by omega, h⟩

/-- Backend used by the C1 witness: the first candidate always reports a
not-found failure, the second always succeeds. -/
def bkC1 : GeminiConnector.Backend := fun m _ =>
  if m = "alpha1" then .exn "404 model not found"
  else .ok { text := some " hello from beta ", candidates := none }

/-- Witness for C1 at a concrete two-candidate client. -/
theorem claim_c1_witness :
    GeminiConnector.generate_text bkC1 none ⟨["alpha1", "beta1"], 0⟩ "write a post" =
      ("hello from beta", ⟨["alpha1", "beta1"], 1⟩, ["alpha1", "beta1"]) := by
  have h := claim_c1_model_fallback bkC1 none ⟨["alpha1", "beta1"], 0⟩ "write a post"
    "404 model not found" { text := some " hello from beta ", candidates := none }
    (by decide) (by decide) (by decide) (by decide) (by decide)
  rw [h.1]
  decide

/-- C3: in a single `generate_text` call the model index never decreases
and advances by at most one, the candidate list is unchanged, and across
a whole `generate` batch the index is monotonically non-decreasing. -/
theorem claim_c3_index_monotone :
    (∀ (backend : GeminiConnector.Backend) (disc : Option (List String))
        (s : GeminiConnector.ClientState) (prompt : String),
      s.current_model_index ≤
          (GeminiConnector.generate_text backend disc s prompt).2.1.current_model_index ∧
        (GeminiConnector.generate_text backend disc s prompt).2.1.current_model_index ≤
          s.current_model_index + 1 ∧
        (GeminiConnector.generate_text backend disc s prompt).2.1.model_names =
          s.model_names) ∧
    (∀ (backend : GeminiConnector.Backend) (disc : Option (List String))
        (s : GeminiConnector.ClientState) (batch : List (String × List String)),
      s.current_model_index ≤
        (GeminiConnector.generate backend disc s batch).2.current_model_index) :=
  ⟨fun backend disc s prompt => GeminiConnector.generate_text_index_le backend disc s prompt,
    fun backend disc s batch => GeminiConnector.generate_index_le backend disc batch s⟩

/-- Backend used by the C7 counterexample: the first candidate fails with
a 404-classified message, the second with an unrelated message. -/
def bkC7x : GeminiConnector.Backend := fun m _ =>
  if m = "alpha7" then .exn "404" else .exn "zz"

/-- C7 counterexample: with two candidates, a not-found failure on the
first and an unrelated failure on the retry, both candidates are
attempted but the returned error string embeds neither candidate name. -/
theorem claim_c7_counterexample :
    (GeminiConnector.generate_text bkC7x none ⟨["alpha7", "beta7"], 0⟩ "hi").2.2 =
        ["alpha7", "beta7"] ∧
      (GeminiConnector.generate_text bkC7x none ⟨["alpha7", "beta7"], 0⟩ "hi").1 =
        "Error generating content: zz" ∧
      chHas "alpha7".data
          (GeminiConnector.generate_text bkC7x none ⟨["alpha7", "beta7"], 0⟩ "hi").1.data =
        false ∧
      chHas "beta7".data
          (GeminiConnector.generate_text bkC7x none ⟨["alpha7", "beta7"], 0⟩ "hi").1.data =
        false := by
  decide

/-- C7 (amended): backend failures never raise; a not-found failure whose
retry also fails yields an error string embedding the retry failure
detail (not the candidate names) with the index advanced once, and any
other failure leaves the state unchanged and yields an error string
embedding the original failure detail plus the discovery tip. -/
theorem claim_c7_error_strings
    (backend : GeminiConnector.Backend) (disc : Option (List String))
    (s : GeminiConnector.ClientState) (prompt msg : String)
    (hp : pyStrip prompt ≠ "")
    (hfail : backend (GeminiConnector.current_model s) prompt = .exn msg) :
    ((GeminiConnector.is_not_found_message msg = false ∨
        ¬ s.current_model_index + 1 < s.model_names.length) →
      GeminiConnector.generate_text backend disc s prompt =
        ("Error generating content: " ++ msg ++
            "\nTip: Set GEMINI_MODEL to one of: " ++ GeminiConnector.tipOf disc,
          s, [GeminiConnector.current_model s]) ∧
      chHas msg.data
        (GeminiConnector.generate_text backend disc s prompt).1.data = true) ∧
    (∀ msg2, GeminiConnector.is_not_found_message msg = true →
      s.current_model_index + 1 < s.model_names.length →
      backend (s.model_names.getD (s.current_model_index + 1) "") prompt = .exn msg2 →
      GeminiConnector.generate_text backend disc s prompt =
        ("Error generating content: " ++ msg2,
          { s with current_model_index := s.current_model_index + 1 },
          [GeminiConnector.current_model s,
            s.model_names.getD (s.current_model_index + 1) ""]) ∧
      chHas msg2.data
        (GeminiConnector.generate_text backend disc s prompt).1.data = true) := by
  constructor
  · intro hc
    have hfull := GeminiConnector.generate_text_of_exn_noretry backend disc s prompt msg hp
      hfail hc
    refine ⟨hfull, ?_⟩
    rw [hfull]
    have hdata : ("Error generating content: " ++ msg ++
        "\nTip: Set GEMINI_MODEL to one of: " ++ GeminiConnector.tipOf disc).data =
        "Error generating content: ".data ++
          (msg.data ++ ("\nTip: Set GEMINI_MODEL to one of: ".data ++
            (GeminiConnector.tipOf disc).data)) := by
      simp [data_append]
    rw [hdata]
    exact chHas_of_append _ _ _
  · intro msg2 hnf hlt hb2
    have hfull : GeminiConnector.generate_text backend disc s prompt =
        ("Error generating content: " ++ msg2,
          { s with current_model_index := s.current_model_index + 1 },
          [GeminiConnector.current_model s,
            s.model_names.getD (s.current_model_index + 1) ""]) := by
      rw [GeminiConnector.generate_text_of_exn_retry backend disc s prompt msg hp hfail hnf
        hlt, hb2]
    refine ⟨hfull, ?_⟩
    rw [hfull]
    have hdata : ("Error generating content: " ++ msg2).data =
        "Error generating content: ".data ++ (msg2.data ++ ([] : List Char)) := by
      simp [data_append]
    rw [hdata]
    exact chHas_of_append _ _ _

/-- Backend used by the C7 witness: every call fails with a rate-limit
message. -/
def bkC7w : GeminiConnector.Backend := fun _ _ => .exn "rate limit exceeded"

/-- Witness for C7 at a concrete rate-limited backend. -/
theorem claim_c7_witness :
    GeminiConnector.generate_text bkC7w none ⟨["alpha7w", "beta7w"], 0⟩ "hi" =
      ("Error generating content: rate limit exceeded" ++
          "\nTip: Set GEMINI_MODEL to one of: (unavailable)",
        ⟨["alpha7w", "beta7w"], 0⟩, ["alpha7w"]) := by
  have h := (claim_c7_error_strings bkC7w none ⟨["alpha7w", "beta7w"], 0⟩ "hi"
      "rate limit exceeded" (by decide) (by decide)).1 (Or.inl (by decide))
  rw [h.1]
  decide

/-- C10: a prompt that strips to nothing returns the empty string with no
backend call recorded and the client state unchanged, for every backend
and discovery outcome. -/
theorem claim_c10_empty_prompt
    (backend : GeminiConnector.Backend) (disc : Option (List String))
    (s : GeminiConnector.ClientState) (prompt : String)
    (h : pyStrip prompt = "") :
    GeminiConnector.generate_text backend disc s prompt = ("", s, []) :=
  GeminiConnector.generate_text_empty backend disc s prompt h

/-- Backend used by the C10 witness. -/
def bkC10 : GeminiConnector.Backend := fun _ _ =>
  .ok { text := some "should never be used", candidates := none }

/-- Witness for C10 at a whitespace-only prompt. -/
theorem claim_c10_witness :
    GeminiConnector.generate_text bkC10 none ⟨["m1", "m2"], 0⟩ " \n\t " =
      ("", ⟨["m1", "m2"], 0⟩, []) :=
  claim_c10_empty_prompt bkC10 none ⟨["m1", "m2"], 0⟩ " \n\t " (by decide)

/-- C4: the combiner strips each result, discards the ones that strip to
nothing, and joins the survivors in their original order with a blank
line; when every input strips to nothing the result is the empty string;
including the two documented examples. -/
theorem claim_c4_combine :
    (∀ outputs : List String,
      GeminiConnector.combine_segment_outputs outputs =
        String.mk (joinSep "\n\n".data
          (((outputs.map pyStrip).filter (fun s => s ≠ "")).map String.data))) ∧
    (∀ outputs : List String, (∀ s ∈ outputs, pyStrip s = "") →
      GeminiConnector.combine_segment_outputs outputs = "") ∧
    GeminiConnector.combine_segment_outputs ["", "  ", "B", "", "A"] = "B\n\nA" ∧
    GeminiConnector.combine_segment_outputs ["", ""] = "" := by
  refine ⟨?_, ?_, by decide, by decide⟩
  · intro outputs
    unfold GeminiConnector.combine_segment_outputs
    rw [filter_map_strip]
  · intro outputs h
    unfold GeminiConnector.combine_segment_outputs
    have hnil : outputs.filter (fun s => pyStrip s ≠ "") = [] := by
      induction outputs with
      | nil => rfl
      | cons a t ih =>
        have ha := h a (List.mem_cons_self a t)
        simp only [List.filter_cons, ha]
        exact ih fun x hx => h x (List.mem_cons_of_mem a hx)
    rw [hnil]
    rfl

/-- Witness for C4: all-whitespace inputs combine to the empty string. -/
theorem claim_c4_witness :
    GeminiConnector.combine_segment_outputs [" ", "\t"] = "" :=
  claim_c4_combine.2.1 [" ", "\t"] (by decide)

theorem wcAux_dropWhile (l : List Char) : wcAux (l.dropWhile isWsC) false = wcAux l false := by
  induction l with
  | nil => rfl
  | cons c rest ih =>
    by_cases h : isWsC c = true
    · rw [List.dropWhile_cons_of_pos h]
      rw [ih]
      show wcAux rest false = wcAux (c :: rest) false
      rw [wcAux, if_pos h]
    · rw [List.dropWhile_cons_of_neg h]

theorem wcAux_ws_nil : ∀ (w : List Char), (∀ c ∈ w, isWsC c = true) → ∀ b, wcAux w b = 0 := by
  intro w
  induction w with
  | nil => intro _ _; rfl
  | cons c rest ih =>
    intro hw b
    have hc := hw c (List.mem_cons_self c rest)
    rw [wcAux, if_pos hc]
    exact ih (fun x hx => hw x (List.mem_cons_of_mem c hx)) false

theorem wcAux_append_ws (w : List Char) (hw : ∀ c ∈ w, isWsC c = true) :
    ∀ (l : List Char) (b : Bool), wcAux (l ++ w) b = wcAux l b := by
  intro l
  induction l with
  | nil => intro b; exact wcAux_ws_nil w hw b
  | cons c rest ih =>
    intro b
    simp only [List.cons_append, wcAux, List.append_eq]
    by_cases h : isWsC c = true
    · rw [if_pos h, if_pos h, ih]
    · rw [if_neg h, if_neg h, ih]

theorem takeWhile_all_ws (l : List Char) : ∀ c ∈ l.takeWhile isWsC, isWsC c = true :=
  fun _ hc => List.mem_takeWhile_imp hc

theorem dropWhile_decomp (l : List Char) :
    ∃ t, l = t ++ l.dropWhile isWsC ∧ ∀ c ∈ t, isWsC c = true :=
  ⟨l.takeWhile isWsC, (List.takeWhile_append_dropWhile isWsC l).symm, takeWhile_all_ws l⟩

theorem strip_decomp (l : List Char) :
    ∃ w, l.dropWhile isWsC = stripL l ++ w ∧ ∀ c ∈ w, isWsC c = true := by
  refine ⟨((l.dropWhile isWsC).reverse.takeWhile isWsC).reverse, ?_, ?_⟩
  · unfold stripL
    conv_lhs =>
      rw [← List.reverse_reverse (l.dropWhile isWsC),
        ← List.takeWhile_append_dropWhile isWsC (l.dropWhile isWsC).reverse]
    rw [List.reverse_append]
  · intro c hc
    rw [List.mem_reverse] at hc
    exact List.mem_takeWhile_imp hc

theorem wc_strip (l : List Char) : wcL (stripL l) = wcL l := by
  obtain ⟨w, hw, hwall⟩ := strip_decomp l
  unfold wcL
  rw [← wcAux_dropWhile l, hw, wcAux_append_ws w hwall]

/-- A character list in stripped form with content: non-empty, with a
non-whitespace first character and a non-whitespace last character. -/
def GoodP (l : List Char) : Prop :=
  (∃ c rest, l = c :: rest ∧ isWsC c = false) ∧
  (∃ init d, l = init ++ [d] ∧ isWsC d = false)

theorem GoodP.ne_nil {l : List Char} (h : GoodP l) : l ≠ [] := by
  obtain ⟨⟨c, rest, hl, _⟩, _⟩ := h
  rw [hl]
  exact List.cons_ne_nil c rest

theorem dropWhile_head_nonws {l : List Char} {c : Char} {rest : List Char}
    (h : l.dropWhile isWsC = c :: rest) : isWsC c = false := by
  induction l with
  | nil => cases h
  | cons a t ih =>
    by_cases ha : isWsC a = true
    · rw [List.dropWhile_cons_of_pos ha] at h
      exact ih h
    · rw [List.dropWhile_cons_of_neg ha] at h
      injection h with h1 _
      rw [← h1]
      exact GeminiConnector.bool_ne_true ha

theorem stripL_good (l : List Char) : stripL l = [] ∨ GoodP (stripL l) := by
  cases hd : (l.dropWhile isWsC).reverse.dropWhile isWsC with
  | nil =>
    left
    unfold stripL
    rw [hd, List.reverse_nil]
  | cons c rest =>
    right
    have hcns : isWsC c = false := dropWhile_head_nonws hd
    have hstrip : stripL l = rest.reverse ++ [c] := by
      unfold stripL
      rw [hd, List.reverse_cons]
    constructor
    · obtain ⟨w, hw, _⟩ := strip_decomp l
      cases hrev : rest.reverse with
      | nil =>
        refine ⟨c, [], ?_, hcns⟩
        rw [hstrip, hrev]
        rfl
      | cons r0 rs =>
        refine ⟨r0, rs ++ [c], ?_, ?_⟩
        · rw [hstrip, hrev]
          rfl
        · refine dropWhile_head_nonws (show l.dropWhile isWsC = r0 :: (rs ++ [c] ++ w) from ?_)
          rw [hw, hstrip, hrev]
          rfl
    · exact ⟨rest.reverse, c, hstrip, hcns⟩

theorem stripL_eq_self {l : List Char} (h : GoodP l) : stripL l = l := by
  obtain ⟨⟨c, rest, hl, hc⟩, ⟨init, d, hl2, hd⟩⟩ := h
  have h1 : l.dropWhile isWsC = l := by
    rw [hl, List.dropWhile_cons_of_neg (by simp [hc])]
  have hrev : l.reverse = d :: init.reverse := by
    rw [hl2, List.reverse_append, List.reverse_singleton, List.singleton_append]
  have h2 : l.reverse.dropWhile isWsC = l.reverse := by
    rw [hrev, List.dropWhile_cons_of_neg (by simp [hd])]
  unfold stripL
  rw [h1, h2, List.reverse_reverse]

theorem all_ws_stripL_nil {l : List Char} (h : ∀ c ∈ l, isWsC c = true) : stripL l = [] := by
  have h1 : l.dropWhile isWsC = [] := List.dropWhile_eq_nil_iff.mpr h
  unfold stripL
  rw [h1]
  rfl

theorem stripL_nil_all_ws {l : List Char} (h : stripL l = []) : ∀ c ∈ l, isWsC c = true := by
  have h2 : (l.dropWhile isWsC).reverse.dropWhile isWsC = [] := by
    have hx := congrArg List.reverse h
    unfold stripL at hx
    rw [List.reverse_reverse, List.reverse_nil] at hx
    exact hx
  have h3 : ∀ c ∈ (l.dropWhile isWsC).reverse, isWsC c = true :=
    List.dropWhile_eq_nil_iff.mp h2
  have h4 : ∀ c ∈ l.dropWhile isWsC, isWsC c = true := by
    intro c hc
    exact h3 c (List.mem_reverse.mpr hc)
  obtain ⟨t, ht, htw⟩ := dropWhile_decomp l
  intro c hc
  rw [ht] at hc
  rcases List.mem_append.mp hc with hc | hc
  · exact htw c hc
  · exact h4 c hc

theorem dropWhile_append_all_ws : ∀ (w : List Char), (∀ c ∈ w, isWsC c = true) →
    ∀ (l : List Char), (w ++ l).dropWhile isWsC = l.dropWhile isWsC := by
  intro w
  induction w with
  | nil => intro _ l; rfl
  | cons c rest ih =>
    intro hw l
    rw [List.cons_append, List.dropWhile_cons_of_pos (hw c (List.mem_cons_self c rest))]
    exact ih (fun x hx => hw x (List.mem_cons_of_mem c hx)) l

theorem stripL_ws_append {w : List Char} (hw : ∀ c ∈ w, isWsC c = true) (l : List Char) :
    stripL (w ++ l) = stripL l := by
  unfold stripL
  rw [dropWhile_append_all_ws w hw l]

theorem goodP_concat {a b : List Char} (m : List Char) (ha : GoodP a) (hb : GoodP b) :
    GoodP (a ++ m ++ b) := by
  obtain ⟨⟨c, rest, hl, hc⟩, _⟩ := ha
  obtain ⟨_, ⟨init, d, hl2, hd⟩⟩ := hb
  constructor
  · refine ⟨c, rest ++ m ++ b, ?_, hc⟩
    rw [hl]
    simp [List.append_assoc]
  · refine ⟨a ++ m ++ init, d, ?_, hd⟩
    rw [hl2]
    simp [List.append_assoc]

theorem joinSep_append_single (sep : List Char) :
    ∀ (g : List (List Char)) (p : List Char), g ≠ [] →
      joinSep sep (g ++ [p]) = joinSep sep g ++ sep ++ p := by
  intro g
  induction g with
  | nil => intro p h; exact absurd rfl h
  | cons x rest ih =>
    intro p _
    cases rest with
    | nil => rfl
    | cons y rest2 =>
      have hih := ih p (List.cons_ne_nil y rest2)
      show x ++ sep ++ joinSep sep ((y :: rest2) ++ [p]) =
        (x ++ sep ++ joinSep sep (y :: rest2)) ++ sep ++ p
      rw [hih]
      simp [List.append_assoc]

theorem joinSep_good (sep : List Char) :
    ∀ (g : List (List Char)), g ≠ [] → (∀ q ∈ g, GoodP q) → GoodP (joinSep sep g) := by
  intro g
  induction g with
  | nil => intro h _; exact absurd rfl h
  | cons x rest ih =>
    intro _ hall
    cases rest with
    | nil => exact hall x (List.mem_cons_self x [])
    | cons y rest2 =>
      have hx := hall x (List.mem_cons_self x (y :: rest2))
      have hrest := ih (List.cons_ne_nil y rest2)
        (fun q hq => hall q (List.mem_cons_of_mem x hq))
      exact goodP_concat sep hx hrest

/-- Adjacent-segment relation of the amended minimum-words invariant: at
least one of two neighbouring segments meets the minimum. -/
def minOK (mw : Nat) (a b : List Char) : Prop := mw ≤ wcL a ∨ mw ≤ wcL b

theorem chain_append_single {α : Type} {R : α → α → Prop} {l : List α} {p : α}
    (hc : List.Chain' R l) (hr : ∀ x, l.getLast? = some x → R x p) :
    List.Chain' R (l ++ [p]) := by
  rw [List.chain'_append]
  refine ⟨hc, List.chain'_singleton p, ?_⟩
  intro x hx y hy
  simp only [List.head?_cons, Option.mem_def, Option.some.injEq] at hy
  rw [← hy]
  exact hr x (Option.mem_def.mp hx)

theorem segLoop_chain (mw : Nat) :
    ∀ (ps segs : List (List Char)) (buffer : List Char),
      List.Chain' (minOK mw) segs →
      (∀ x, segs.getLast? = some x → mw ≤ wcL x) →
      List.Chain' (minOK mw) (segLoop mw ps segs buffer) := by
  intro ps
  induction ps with
  | nil =>
    intro segs buffer hc hl
    show List.Chain' (minOK mw) (flushB segs buffer).1
    unfold flushB
    by_cases hfb : stripL buffer ≠ []
    · rw [if_pos hfb]
      exact chain_append_single hc (fun x hx => Or.inl (hl x hx))
    · rw [if_neg hfb]
      exact hc
  | cons p ps ih =>
    intro segs buffer hc hl
    show List.Chain' (minOK mw)
      (if mw ≤ wcL p then
        let fb := if buffer ≠ [] then flushB segs buffer else (segs, buffer)
        segLoop mw ps (fb.1 ++ [p]) fb.2
      else
        let buffer2 := stripL (buffer ++ '\n' :: '\n' :: p)
        if mw ≤ wcL buffer2 then
          let fb := flushB segs buffer2
          segLoop mw ps fb.1 fb.2
        else
          segLoop mw ps segs buffer2)
    by_cases hbig : mw ≤ wcL p
    · rw [if_pos hbig]
      have hstep : ∀ (segs2 : List (List Char)) (buf2 : List Char),
          List.Chain' (minOK mw) segs2 →
          List.Chain' (minOK mw) (segLoop mw ps (segs2 ++ [p]) buf2) := by
        intro segs2 buf2 hc2
        refine ih (segs2 ++ [p]) buf2 ?_ ?_
        · exact chain_append_single hc2 (fun x _ => Or.inr hbig)
        · intro x hx
          rw [List.getLast?_concat] at hx
          injection hx with hx
          rw [← hx]
          exact hbig
      by_cases hbuf : buffer ≠ []
      · rw [if_pos hbuf]
        show List.Chain' (minOK mw)
          (segLoop mw ps ((flushB segs buffer).1 ++ [p]) (flushB segs buffer).2)
        unfold flushB
        by_cases hfb : stripL buffer ≠ []
        · rw [if_pos hfb]
          exact hstep (segs ++ [stripL buffer]) []
            (chain_append_single hc (fun x hx => Or.inl (hl x hx)))
        · rw [if_neg hfb]
          exact hstep segs buffer hc
      · rw [if_neg hbuf]
        exact hstep segs buffer hc
    · rw [if_neg hbig]
      by_cases hth : mw ≤ wcL (stripL (buffer ++ '\n' :: '\n' :: p))
      · rw [if_pos hth]
        show List.Chain' (minOK mw)
          (segLoop mw ps (flushB segs (stripL (buffer ++ '\n' :: '\n' :: p))).1
            (flushB segs (stripL (buffer ++ '\n' :: '\n' :: p))).2)
        unfold flushB
        by_cases hfb : stripL (stripL (buffer ++ '\n' :: '\n' :: p)) ≠ []
        · rw [if_pos hfb]
          refine ih (segs ++ [stripL (stripL (buffer ++ '\n' :: '\n' :: p))]) [] ?_ ?_
          · refine chain_append_single hc (fun x hx => Or.inl (hl x hx))
          · intro x hx
            rw [List.getLast?_concat] at hx
            injection hx with hx
            rw [← hx, wc_strip]
            exact hth
        · rw [if_neg hfb]
          exact ih segs (stripL (buffer ++ '\n' :: '\n' :: p)) hc hl
      · rw [if_neg hth]
        exact ih segs (stripL (buffer ++ '\n' :: '\n' :: p)) hc hl

theorem chain_getD {α : Type} {R : α → α → Prop} (d : α) :
    ∀ l : List α, List.Chain' R l → ∀ i, i + 1 < l.length →
      R (l.getD i d) (l.getD (i + 1) d) := by
  intro l
  induction l with
  | nil => intro _ i hi; exact absurd hi (by simp)
  | cons a t ih =>
    intro hc i hi
    cases t with
    | nil => exact absurd hi (by simp)
    | cons b t2 =>
      rw [List.chain'_cons] at hc
      cases i with
      | zero =>
        rw [List.getD_cons_zero, List.getD_cons_succ, List.getD_cons_zero]
        exact hc.1
      | succ k =>
        rw [List.getD_cons_succ, List.getD_cons_succ]
        exact ih hc.2 k (by simpa using hi)

theorem splitIntoSegsL_chain (text : List Char) (mw : Nat) :
    List.Chain' (minOK mw) (splitIntoSegsL text mw) := by
  unfold splitIntoSegsL
  by_cases hps : segParagraphs text = []
  · rw [if_pos hps]
    exact List.chain'_nil
  · rw [if_neg hps]
    exact segLoop_chain mw (segParagraphs text) [] [] List.chain'_nil (by intro x hx; cases hx)

/-- C2 counterexample: with minimum 2, the input of a one-word paragraph
followed by a two-word paragraph yields two segments whose first is below
the minimum although it is not the last segment (the pending short buffer
is flushed when a paragraph meeting the minimum arrives). -/
theorem claim_c2_counterexample :
    split_into_segments "a\n\nb c" 2 = ["a", "b c"] ∧
      0 + 1 < (split_into_segments "a\n\nb c" 2).length ∧
      ¬ 2 ≤ word_count ((split_into_segments "a\n\nb c" 2).getD 0 "") := by
  decide

/-- C2 (amended): in `split_into_segments text min_words`, of any two
adjacent segments at least one has word count at least `min_words`; a
segment below the minimum can occur before the end only when the segment
immediately after it meets the minimum on its own (and the final segment
may always be short). -/
theorem claim_c2_min_words (text : String) (min_words i : Nat)
    (h : i + 1 < (split_into_segments text min_words).length) :
    min_words ≤ word_count ((split_into_segments text min_words).getD i "") ∨
      min_words ≤ word_count ((split_into_segments text min_words).getD (i + 1) "") := by
  have hchain := splitIntoSegsL_chain text.data min_words
  have hch2 : List.Chain'
      (fun a b : String => min_words ≤ word_count a ∨ min_words ≤ word_count b)
      (split_into_segments text min_words) := by
    unfold split_into_segments
    rw [List.chain'_map]
    exact hchain
  exact chain_getD "" (split_into_segments text min_words) hch2 i h

/-- Witness for the amended C2 at the counterexample input: the segment
after the short one meets the minimum. -/
theorem claim_c2_witness :
    2 ≤ word_count ((split_into_segments "a\n\nb c" 2).getD 0 "") ∨
      2 ≤ word_count ((split_into_segments "a\n\nb c" 2).getD 1 "") :=
  claim_c2_min_words "a\n\nb c" 2 0 (by decide)

theorem splitNN_ne_nil : ∀ l : List Char, splitNN l ≠ [] := by
  intro l
  match l with
  | [] => simp [splitNN]
  | [c] => simp [splitNN]
  | c :: d :: rest =>
    rw [splitNN]
    by_cases h : c = '\n' ∧ d = '\n'
    · rw [if_pos h]
      simp
    · rw [if_neg h]
      cases hs : splitNN (d :: rest) <;> simp

theorem joinSep_splitNN_aux : ∀ (n : Nat) (l : List Char), l.length ≤ n →
    joinSep ['\n', '\n'] (splitNN l) = l := by
  intro n
  induction n with
  | zero =>
    intro l hl
    have hnil : l = [] := List.eq_nil_of_length_eq_zero (Nat.le_zero.mp hl)
    subst hnil
    rfl
  | succ n ih =>
    intro l hl
    match l with
    | [] => rfl
    | [c] => rfl
    | c :: d :: rest =>
      rw [splitNN]
      by_cases h : c = '\n' ∧ d = '\n'
      · rw [if_pos h]
        obtain ⟨rfl, rfl⟩ := h
        have hrest := ih rest (by simp at hl; omega)
        cases hs : splitNN rest with
        | nil => exact absurd hs (splitNN_ne_nil rest)
        | cons p ps =>
          rw [hs] at hrest
          show ('\n' : Char) :: '\n' :: joinSep ['\n', '\n'] (p :: ps) =
            '\n' :: '\n' :: rest
          rw [hrest]
      · rw [if_neg h]
        have hrec := ih (d :: rest) (by simp at hl ⊢; omega)
        cases hs : splitNN (d :: rest) with
        | nil => exact absurd hs (splitNN_ne_nil (d :: rest))
        | cons p ps =>
          rw [hs] at hrec
          cases ps with
          | nil =>
            show c :: p = c :: d :: rest
            have hp : p = d :: rest := hrec
            rw [hp]
          | cons q ps2 =>
            show c :: joinSep ['\n', '\n'] (p :: q :: ps2) = c :: d :: rest
            rw [hrec]

theorem joinSep_splitNN (l : List Char) : joinSep ['\n', '\n'] (splitNN l) = l :=
  joinSep_splitNN_aux l.length l (Nat.le_refl _)

theorem mem_joinSep_decomp (sep : List Char) :
    ∀ (ps : List (List Char)) (p : List Char), p ∈ ps →
      ∃ x y, joinSep sep ps = x ++ (p ++ y) := by
  intro ps
  induction ps with
  | nil => intro p hp; cases hp
  | cons a rest ih =>
    intro p hp
    cases rest with
    | nil =>
      have hpa : p = a := by
        rcases List.mem_cons.mp hp with h | h
        · exact h
        · cases h
      refine ⟨[], [], ?_⟩
      rw [hpa]
      simp [joinSep]
    | cons b rest2 =>
      rcases List.mem_cons.mp hp with h | h
      · refine ⟨[], sep ++ joinSep sep (b :: rest2), ?_⟩
        rw [h]
        show a ++ sep ++ joinSep sep (b :: rest2) = [] ++ (a ++ (sep ++ joinSep sep (b :: rest2)))
        simp [List.append_assoc]
      · obtain ⟨x, y, hxy⟩ := ih p h
        refine ⟨a ++ sep ++ x, y, ?_⟩
        show a ++ sep ++ joinSep sep (b :: rest2) = (a ++ sep ++ x) ++ (p ++ y)
        rw [hxy]
        simp [List.append_assoc]

theorem mem_joinSep_chars (sep : List Char) :
    ∀ (ps : List (List Char)) (c : Char), c ∈ joinSep sep ps →
      (∃ p ∈ ps, c ∈ p) ∨ c ∈ sep := by
  intro ps
  induction ps with
  | nil => intro c hc; cases hc
  | cons a rest ih =>
    intro c hc
    cases rest with
    | nil => exact Or.inl ⟨a, List.mem_cons_self a [], hc⟩
    | cons b rest2 =>
      rcases List.mem_append.mp hc with hc1 | hc1
      · rcases List.mem_append.mp hc1 with hc2 | hc2
        · exact Or.inl ⟨a, List.mem_cons_self a (b :: rest2), hc2⟩
        · exact Or.inr hc2
      · rcases ih c hc1 with ⟨p, hp, hcp⟩ | hcs
        · exact Or.inl ⟨p, List.mem_cons_of_mem a hp, hcp⟩
        · exact Or.inr hcs

theorem segParagraphs_good (t : List Char) : ∀ p ∈ segParagraphs t, GoodP p := by
  intro p hp
  unfold segParagraphs at hp
  obtain ⟨piece, hpiece, hmap⟩ := List.mem_map.mp hp
  have hne : stripL piece ≠ [] := by
    have := (List.mem_filter.mp hpiece).2
    simpa using this
  rcases stripL_good piece with h | h
  · exact absurd h hne
  · rw [← hmap]
    exact h

theorem segParagraphs_mem_splitNN (t : List Char) :
    ∀ p ∈ segParagraphs t, ∃ piece ∈ splitNN t, p = stripL piece := by
  intro p hp
  unfold segParagraphs at hp
  obtain ⟨piece, hpiece, hmap⟩ := List.mem_map.mp hp
  exact ⟨piece, (List.mem_filter.mp hpiece).1, hmap.symm⟩

theorem segParagraphs_ne_nil {t : List Char} (h : stripL t ≠ []) : segParagraphs t ≠ [] := by
  intro hps
  apply h
  apply all_ws_stripL_nil
  have hall : ∀ piece ∈ splitNN t, stripL piece = [] := by
    intro piece hpiece
    by_contra hne
    have : piece ∈ (splitNN t).filter (fun s => stripL s ≠ []) :=
      List.mem_filter.mpr ⟨hpiece, by simpa using hne⟩
    have hmem : stripL piece ∈ segParagraphs t := by
      unfold segParagraphs
      exact List.mem_map.mpr ⟨piece, this, rfl⟩
    rw [hps] at hmem
    cases hmem
  intro c hc
  rw [← joinSep_splitNN t] at hc
  rcases mem_joinSep_chars ['\n', '\n'] (splitNN t) c hc with ⟨p, hp, hcp⟩ | hcs
  · exact stripL_nil_all_ws (hall p hp) c hcp
  · rcases List.mem_cons.mp hcs with h1 | h1
    · rw [h1]; rfl
    · rcases List.mem_cons.mp h1 with h2 | h2
      · rw [h2]; rfl
      · cases h2

theorem mem_strip_sub {l : List Char} {c : Char} (hc : c ∈ stripL l) : c ∈ l := by
  obtain ⟨t, ht, _⟩ := dropWhile_decomp l
  obtain ⟨w, hw, _⟩ := strip_decomp l
  rw [ht, hw]
  exact List.mem_append.mpr (Or.inr (List.mem_append.mpr (Or.inl hc)))

theorem nonws_mem_strip {l : List Char} {c : Char} (hc : c ∈ l) (hns : isWsC c = false) :
    c ∈ stripL l := by
  have h1 : c ∈ l.dropWhile isWsC := by
    obtain ⟨t, ht, htw⟩ := dropWhile_decomp l
    rw [ht] at hc
    rcases List.mem_append.mp hc with h | h
    · have hcw := htw c h
      rw [hns] at hcw
      cases hcw
    · exact h
  have h2 : c ∈ (l.dropWhile isWsC).reverse := List.mem_reverse.mpr h1
  have h3 : c ∈ (l.dropWhile isWsC).reverse.dropWhile isWsC := by
    obtain ⟨t, ht, htw⟩ := dropWhile_decomp (l.dropWhile isWsC).reverse
    rw [ht] at h2
    rcases List.mem_append.mp h2 with h | h
    · have hcw := htw c h
      rw [hns] at hcw
      cases hcw
    · exact h
  unfold stripL
  exact List.mem_reverse.mpr h3

theorem dropWhile_keeps_around :
    ∀ (u : List Char) (c : Char) (v : List Char), (∃ a ∈ u, isWsC a = false) →
      ∃ u2, (u ++ c :: v).dropWhile isWsC = u2 ++ c :: v ∧ ∃ a ∈ u2, isWsC a = false := by
  intro u
  induction u with
  | nil =>
    intro c v h
    obtain ⟨a, ha, _⟩ := h
    cases ha
  | cons x u2 ih =>
    intro c v h
    by_cases hx : isWsC x = true
    · rw [List.cons_append, List.dropWhile_cons_of_pos hx]
      obtain ⟨a, ha, hans⟩ := h
      rcases List.mem_cons.mp ha with h1 | h1
      · rw [← h1, hans] at hx
        cases hx
      · exact ih c v ⟨a, h1, hans⟩
    · rw [List.cons_append, List.dropWhile_cons_of_neg hx]
      exact ⟨x :: u2, rfl, ⟨x, List.mem_cons_self x u2, GeminiConnector.bool_ne_true hx⟩⟩

theorem ws_between_mem_strip (u : List Char) (c : Char) (v : List Char)
    (hu : ∃ a ∈ u, isWsC a = false) (hv : ∃ b ∈ v, isWsC b = false) :
    c ∈ stripL (u ++ c :: v) := by
  obtain ⟨u2, hd1, hu2⟩ := dropWhile_keeps_around u c v hu
  have hrev : (u2 ++ c :: v).reverse = v.reverse ++ c :: u2.reverse := by
    rw [List.reverse_append, List.reverse_cons]
    simp [List.append_assoc]
  have hvrev : ∃ b ∈ v.reverse, isWsC b = false := by
    obtain ⟨b, hb, hbns⟩ := hv
    exact ⟨b, List.mem_reverse.mpr hb, hbns⟩
  obtain ⟨v2, hd2, _⟩ := dropWhile_keeps_around v.reverse c u2.reverse hvrev
  unfold stripL
  rw [hd1, hrev, hd2]
  rw [List.mem_reverse]
  exact List.mem_append.mpr (Or.inr (List.mem_cons_self c u2.reverse))

theorem paragraph_chars_in_strip (t : List Char) :
    ∀ p ∈ segParagraphs t, ∀ c ∈ p, c ∈ stripL t := by
  intro p hp c hc
  obtain ⟨piece, hpiece, hps⟩ := segParagraphs_mem_splitNN t p hp
  obtain ⟨x, y, hxy⟩ : ∃ x y, t = x ++ (piece ++ y) := by
    obtain ⟨x, y, hxy⟩ := mem_joinSep_decomp ['\n', '\n'] (splitNN t) piece hpiece
    rw [joinSep_splitNN t] at hxy
    exact ⟨x, y, hxy⟩
  by_cases hns : isWsC c = true
  · -- whitespace character interior to the stripped piece
    have hgood : GoodP (stripL piece) := by
      rcases stripL_good piece with h | h
      · rw [hps, h] at hc
        cases hc
      · exact h
    rw [hps] at hc
    obtain ⟨u, v, huv⟩ := List.append_of_mem hc
    obtain ⟨⟨c0, rest0, hhead, hc0⟩, ⟨init, d, hlast, hdns⟩⟩ := hgood
    have hu : ∃ a ∈ u, isWsC a = false := by
      cases u with
      | nil =>
        rw [huv] at hhead
        injection hhead with h1 _
        rw [← h1] at hc0
        rw [hc0] at hns
        cases hns
      | cons a u3 =>
        rw [huv] at hhead
        injection hhead with h1 _
        exact ⟨a, List.mem_cons_self a u3, by rw [h1]; exact hc0⟩
    have hv : ∃ b ∈ v, isWsC b = false := by
      cases hvnil : v with
      | nil =>
        rw [huv, hvnil] at hlast
        have h1 := congrArg List.getLast? hlast
        rw [List.getLast?_concat, List.getLast?_concat] at h1
        injection h1 with h1
        rw [h1, hdns] at hns
        cases hns
      | cons b0 v2 =>
        have hlast2 : (stripL piece).getLast? = some d := by
          rw [hlast]
          exact List.getLast?_concat init
        have hlast3 : (stripL piece).getLast? = (b0 :: v2).getLast? := by
          rw [huv, hvnil, List.getLast?_append_cons, List.getLast?_cons_cons]
        rw [hlast3] at hlast2
        have hne := List.cons_ne_nil b0 v2
        rw [List.getLast?_eq_getLast_of_ne_nil hne] at hlast2
        injection hlast2 with he
        refine ⟨d, ?_, hdns⟩
        rw [← he]
        exact List.getLast_mem hne
    obtain ⟨t1, ht1, _⟩ := dropWhile_decomp piece
    obtain ⟨w1, hw1, _⟩ := strip_decomp piece
    have ht : t = (x ++ (t1 ++ u)) ++ c :: (v ++ (w1 ++ y)) := by
      rw [hxy, ht1, hw1, huv]
      simp [List.append_assoc]
    rw [ht]
    apply ws_between_mem_strip
    · obtain ⟨a, ha, hans⟩ := hu
      exact ⟨a, List.mem_append.mpr (Or.inr (List.mem_append.mpr (Or.inr ha))), hans⟩
    · obtain ⟨b, hb, hbns⟩ := hv
      exact ⟨b, List.mem_append.mpr (Or.inl hb), hbns⟩
  · refine nonws_mem_strip ?_ (GeminiConnector.bool_ne_true hns)
    rw [hxy]
    have hcp : c ∈ stripL piece := by
      rw [← hps]
      exact hc
    exact List.mem_append.mpr (Or.inr (List.mem_append.mpr (Or.inl (mem_strip_sub hcp))))

theorem flushB_nil (segs : List (List Char)) : flushB segs [] = (segs, []) := rfl

theorem flushB_good (segs : List (List Char)) {b : List Char} (hb : GoodP b) :
    flushB segs b = (segs ++ [b], []) := by
  unfold flushB
  rw [stripL_eq_self hb]
  rw [if_pos hb.ne_nil]

theorem segLoop_nil_eq (mw : Nat) (segs : List (List Char)) (buffer : List Char) :
    segLoop mw [] segs buffer = (flushB segs buffer).1 := rfl

theorem segLoop_cons_eq (mw : Nat) (p : List Char) (ps segs : List (List Char))
    (buffer : List Char) :
    segLoop mw (p :: ps) segs buffer =
      if mw ≤ wcL p then
        segLoop mw ps ((if buffer ≠ [] then flushB segs buffer else (segs, buffer)).1 ++ [p])
          (if buffer ≠ [] then flushB segs buffer else (segs, buffer)).2
      else
        if mw ≤ wcL (stripL (buffer ++ '\n' :: '\n' :: p)) then
          segLoop mw ps (flushB segs (stripL (buffer ++ '\n' :: '\n' :: p))).1
            (flushB segs (stripL (buffer ++ '\n' :: '\n' :: p))).2
        else segLoop mw ps segs (stripL (buffer ++ '\n' :: '\n' :: p)) := rfl

theorem good_group_append {pss0 : List (List (List Char))} {g0 : List (List Char)}
    (h : ∀ g ∈ pss0, g ≠ [] ∧ ∀ q ∈ g, GoodP q) (hg0 : g0 ≠ []) (hq0 : ∀ q ∈ g0, GoodP q) :
    ∀ g ∈ pss0 ++ [g0], g ≠ [] ∧ ∀ q ∈ g, GoodP q := by
  intro g hg
  rcases List.mem_append.mp hg with h1 | h1
  · exact h g h1
  · rcases List.mem_cons.mp h1 with h2 | h2
    · rw [h2]
      exact ⟨hg0, hq0⟩
    · cases h2

theorem good_buf_append {bufG : List (List Char)} {p : List Char}
    (hb : ∀ q ∈ bufG, GoodP q) (hp : GoodP p) : ∀ q ∈ bufG ++ [p], GoodP q := by
  intro q hq
  rcases List.mem_append.mp hq with h1 | h1
  · exact hb q h1
  · rcases List.mem_cons.mp h1 with h2 | h2
    · rw [h2]
      exact hp
    · cases h2

theorem joinSep_buf_step {bufG : List (List Char)} {p : List Char}
    (hb : ∀ q ∈ bufG, GoodP q) (hp : GoodP p) :
    stripL (joinSep ['\n', '\n'] bufG ++ '\n' :: '\n' :: p) =
      joinSep ['\n', '\n'] (bufG ++ [p]) := by
  cases bufG with
  | nil =>
    show stripL (['\n', '\n'] ++ p) = joinSep ['\n', '\n'] [p]
    rw [stripL_ws_append (by decide) p, stripL_eq_self hp]
    rfl
  | cons g0 gs =>
    have hJ : GoodP (joinSep ['\n', '\n'] (g0 :: gs)) :=
      joinSep_good ['\n', '\n'] (g0 :: gs) (List.cons_ne_nil g0 gs) hb
    have hassoc : joinSep ['\n', '\n'] (g0 :: gs) ++ '\n' :: '\n' :: p =
        joinSep ['\n', '\n'] (g0 :: gs) ++ ['\n', '\n'] ++ p := by
      simp [List.append_assoc]
    rw [hassoc, stripL_eq_self (goodP_concat ['\n', '\n'] hJ hp),
      joinSep_append_single ['\n', '\n'] (g0 :: gs) p (List.cons_ne_nil g0 gs)]

theorem segLoop_structure (mw : Nat) :
    ∀ (ps : List (List Char)), (∀ q ∈ ps, GoodP q) →
    ∀ (pss0 : List (List (List Char))) (bufG : List (List Char)),
      (∀ g ∈ pss0, g ≠ [] ∧ ∀ q ∈ g, GoodP q) →
      (∀ q ∈ bufG, GoodP q) →
      ∃ pss : List (List (List Char)),
        segLoop mw ps (pss0.map (joinSep ['\n', '\n'])) (joinSep ['\n', '\n'] bufG) =
          pss.map (joinSep ['\n', '\n']) ∧
        pss.flatten = pss0.flatten ++ bufG ++ ps ∧
        (∀ g ∈ pss, g ≠ [] ∧ ∀ q ∈ g, GoodP q) := by
  intro ps
  induction ps with
  | nil =>
    intro _ pss0 bufG hgood hbuf
    rw [segLoop_nil_eq]
    cases bufG with
    | nil =>
      rw [show joinSep ['\n', '\n'] ([] : List (List Char)) = [] from rfl,
        flushB_nil (pss0.map (joinSep ['\n', '\n']))]
      exact ⟨pss0, rfl, by simp, hgood⟩
    | cons g0 gs =>
      have hJ : GoodP (joinSep ['\n', '\n'] (g0 :: gs)) :=
        joinSep_good ['\n', '\n'] (g0 :: gs) (List.cons_ne_nil g0 gs) hbuf
      rw [flushB_good (pss0.map (joinSep ['\n', '\n'])) hJ]
      refine ⟨pss0 ++ [g0 :: gs], by simp, by simp, ?_⟩
      exact good_group_append hgood (List.cons_ne_nil g0 gs) hbuf
  | cons p ps ih =>
    intro hps pss0 bufG hgood hbuf
    have hp : GoodP p := hps p (List.mem_cons_self p ps)
    have hps2 : ∀ q ∈ ps, GoodP q := fun q hq => hps q (List.mem_cons_of_mem p hq)
    rw [segLoop_cons_eq]
    by_cases hbig : mw ≤ wcL p
    · rw [if_pos hbig]
      cases bufG with
      | nil =>
        rw [show joinSep ['\n', '\n'] ([] : List (List Char)) = [] from rfl]
        rw [if_neg (by simp)]
        have hmap : pss0.map (joinSep ['\n', '\n']) ++ [p] =
            (pss0 ++ [[p]]).map (joinSep ['\n', '\n']) := by
          simp [joinSep]
        rw [show ((pss0.map (joinSep ['\n', '\n']), ([] : List Char)).1 ++ [p]) =
          pss0.map (joinSep ['\n', '\n']) ++ [p] from rfl]
        rw [hmap]
        obtain ⟨pss, h1, h2, h3⟩ := ih hps2 (pss0 ++ [[p]]) []
          (good_group_append hgood (List.cons_ne_nil p []) (by
            intro q hq
            rcases List.mem_cons.mp hq with h | h
            · rw [h]; exact hp
            · cases h))
          (by intro q hq; cases hq)
        refine ⟨pss, ?_, ?_, h3⟩
        · rw [show joinSep ['\n', '\n'] ([] : List (List Char)) = [] from rfl] at h1
          exact h1
        · rw [h2]
          simp
      | cons g0 gs =>
        have hJ : GoodP (joinSep ['\n', '\n'] (g0 :: gs)) :=
          joinSep_good ['\n', '\n'] (g0 :: gs) (List.cons_ne_nil g0 gs) hbuf
        rw [if_pos hJ.ne_nil, flushB_good (pss0.map (joinSep ['\n', '\n'])) hJ]
        have hmap : (pss0.map (joinSep ['\n', '\n']) ++ [joinSep ['\n', '\n'] (g0 :: gs)]) ++ [p] =
            ((pss0 ++ [g0 :: gs]) ++ [[p]]).map (joinSep ['\n', '\n']) := by
          simp
          rfl
        rw [show ((pss0.map (joinSep ['\n', '\n']) ++ [joinSep ['\n', '\n'] (g0 :: gs)],
            ([] : List Char)).1 ++ [p]) =
          (pss0.map (joinSep ['\n', '\n']) ++ [joinSep ['\n', '\n'] (g0 :: gs)]) ++ [p] from rfl]
        rw [hmap]
        obtain ⟨pss, h1, h2, h3⟩ := ih hps2 ((pss0 ++ [g0 :: gs]) ++ [[p]]) []
          (good_group_append (good_group_append hgood (List.cons_ne_nil g0 gs) hbuf)
            (List.cons_ne_nil p []) (by
              intro q hq
              rcases List.mem_cons.mp hq with h | h
              · rw [h]; exact hp
              · cases h))
          (by intro q hq; cases hq)
        refine ⟨pss, ?_, ?_, h3⟩
        · rw [show joinSep ['\n', '\n'] ([] : List (List Char)) = [] from rfl] at h1
          exact h1
        · rw [h2]
          simp
    · rw [if_neg hbig]
      rw [joinSep_buf_step hbuf hp]
      by_cases hth : mw ≤ wcL (joinSep ['\n', '\n'] (bufG ++ [p]))
      · rw [if_pos hth]
        have hJ2 : GoodP (joinSep ['\n', '\n'] (bufG ++ [p])) := by
          refine joinSep_good ['\n', '\n'] (bufG ++ [p]) ?_ (good_buf_append hbuf hp)
          intro hnil
          have : p ∈ bufG ++ [p] := List.mem_append.mpr (Or.inr (List.mem_cons_self p []))
          rw [hnil] at this
          cases this
        rw [flushB_good (pss0.map (joinSep ['\n', '\n'])) hJ2]
        have hmap : pss0.map (joinSep ['\n', '\n']) ++ [joinSep ['\n', '\n'] (bufG ++ [p])] =
            (pss0 ++ [bufG ++ [p]]).map (joinSep ['\n', '\n']) := by simp
        rw [hmap]
        obtain ⟨pss, h1, h2, h3⟩ := ih hps2 (pss0 ++ [bufG ++ [p]]) []
          (good_group_append hgood (by simp) (good_buf_append hbuf hp))
          (by intro q hq; cases hq)
        refine ⟨pss, ?_, ?_, h3⟩
        · rw [show joinSep ['\n', '\n'] ([] : List (List Char)) = [] from rfl] at h1
          exact h1
        · rw [h2]
          simp
      · rw [if_neg hth]
        obtain ⟨pss, h1, h2, h3⟩ := ih hps2 pss0 (bufG ++ [p]) hgood (good_buf_append hbuf hp)
        refine ⟨pss, h1, ?_, h3⟩
        rw [h2]
        simp

theorem splitIntoSegsL_structure (t : List Char) (mw : Nat) :
    ∃ pss : List (List (List Char)),
      pss.flatten = segParagraphs t ∧
      (∀ g ∈ pss, g ≠ [] ∧ ∀ q ∈ g, GoodP q) ∧
      splitIntoSegsL t mw = pss.map (joinSep ['\n', '\n']) := by
  unfold splitIntoSegsL
  by_cases hps : segParagraphs t = []
  · rw [if_pos hps]
    refine ⟨[], ?_, ?_, rfl⟩
    · simp [hps]
    · intro g hg
      cases hg
  · rw [if_neg hps]
    obtain ⟨pss, h1, h2, h3⟩ := segLoop_structure mw (segParagraphs t) (segParagraphs_good t)
      [] [] (by intro g hg; cases hg) (by intro q hq; cases hq)
    refine ⟨pss, ?_, h3, ?_⟩
    · rw [h2]
      simp
    · rw [← h1]
      rfl

/-- C9: for input with non-whitespace content, segmentation returns a
non-empty sequence; the segments are exactly consecutive groups of the
stripped paragraphs joined by blank lines, so segment content follows
source order; and every character of the concatenated segments occurs in
the stripped source except for the blank-line newlines the joins insert. -/
theorem claim_c9_segments_structure (text : String) (min_words : Nat)
    (h : pyStrip text ≠ "") :
    split_into_segments text min_words ≠ [] ∧
    (∃ pss : List (List (List Char)),
      pss.flatten = segParagraphs text.data ∧
      (∀ g ∈ pss, g ≠ []) ∧
      split_into_segments text min_words =
        pss.map (fun g => String.mk (joinSep ['\n', '\n'] g))) ∧
    (∀ c ∈ ((split_into_segments text min_words).map String.data).flatten,
      c ∈ (pyStrip text).data ∨ c = '\n') := by
  have hstr : stripL text.data ≠ [] := by
    intro hnil
    apply h
    show String.mk (stripL text.data) = ""
    rw [hnil]
  obtain ⟨pss, h1, h2, h3⟩ := splitIntoSegsL_structure text.data min_words
  have hpsne : segParagraphs text.data ≠ [] := segParagraphs_ne_nil hstr
  have hpssne : pss ≠ [] := by
    intro hnil
    apply hpsne
    rw [← h1, hnil]
    rfl
  have hdata : (split_into_segments text min_words).map String.data =
      pss.map (joinSep ['\n', '\n']) := by
    unfold split_into_segments
    rw [h3, List.map_map, List.map_map]
    rfl
  refine ⟨?_, ⟨pss, h1, fun g hg => (h2 g hg).1, ?_⟩, ?_⟩
  · unfold split_into_segments
    rw [h3]
    intro hmapnil
    rw [List.map_eq_nil_iff, List.map_eq_nil_iff] at hmapnil
    exact hpssne hmapnil
  · unfold split_into_segments
    rw [h3, List.map_map]
    rfl
  · intro c hc
    rw [hdata] at hc
    obtain ⟨seg, hseg, hcseg⟩ := List.mem_flatten.mp hc
    obtain ⟨g, hg, hgseg⟩ := List.mem_map.mp hseg
    rw [← hgseg] at hcseg
    rcases mem_joinSep_chars ['\n', '\n'] g c hcseg with ⟨q, hq, hcq⟩ | hcs
    · left
      have hqpar : q ∈ segParagraphs text.data := by
        rw [← h1]
        exact List.mem_flatten.mpr ⟨g, hg, hq⟩
      exact paragraph_chars_in_strip text.data q hqpar c hcq
    · right
      rcases List.mem_cons.mp hcs with h1 | h1
      · exact h1
      · rcases List.mem_cons.mp h1 with h2 | h2
        · exact h2
        · cases h2

/-- Witness for C9 at a concrete two-word input. -/
theorem claim_c9_witness :
    split_into_segments "hello world" 1 ≠ [] ∧
    (∀ c ∈ ((split_into_segments "hello world" 1).map String.data).flatten,
      c ∈ (pyStrip "hello world").data ∨ c = '\n') :=
  ⟨(claim_c9_segments_structure "hello world" 1 (by decide)).1,
    (claim_c9_segments_structure "hello world" 1 (by decide)).2.2⟩

/-- No position strictly inside `u` starts an occurrence of `pat` in
`u ++ pat`: the occurrence of `pat` at the very end is the leftmost one. -/
def noEarly (pat : List Char) : List Char → Bool
  | [] => true
  | c :: rest => !chStarts pat (c :: (rest ++ pat)) && noEarly pat rest

theorem chHas_cons_false {pat : List Char} {c : Char} {rest : List Char}
    (h : chHas pat (c :: rest) = false) :
    chStarts pat (c :: rest) = false ∧ chHas pat rest = false := by
  rw [chHas] at h
  exact ⟨by cases hx : chStarts pat (c :: rest) <;> simp [hx] at h ⊢,
    by cases hx : chHas pat rest <;> simp [hx] at h ⊢⟩

theorem subst_no_occur (pat sub : List Char) :
    ∀ (fuel : Nat) (l : List Char), chHas pat l = false → substF pat sub fuel l = l := by
  intro fuel
  induction fuel with
  | zero => intro l _; cases l <;> rfl
  | succ f ih =>
    intro l hl
    cases l with
    | nil => rfl
    | cons c rest =>
      obtain ⟨h1, h2⟩ := chHas_cons_false hl
      rw [substF, if_neg (by simp [h1])]
      rw [ih rest h2]

theorem subst_append_end (sub : List Char) {pat : List Char} (hpat : pat ≠ []) :
    ∀ (u : List Char) (fuel : Nat), noEarly pat u = true → u.length + 1 ≤ fuel →
      substF pat sub fuel (u ++ pat) = u ++ sub := by
  intro u
  induction u with
  | nil =>
    intro fuel _ hfuel
    cases fuel with
    | zero => exact absurd hfuel (by simp)
    | succ f =>
      cases hp : pat with
      | nil => exact absurd hp hpat
      | cons p0 pr =>
        subst hp
        show substF (p0 :: pr) sub (f + 1) (p0 :: pr) = sub
        have hs : chStarts (p0 :: pr) (p0 :: pr) = true := by
          have hx := chStarts_self_append (p0 :: pr) []
          rwa [List.append_nil] at hx
        rw [substF, if_pos (by simp [hs])]
        have hdrop : pr.drop ((p0 :: pr).length - 1) = [] := by simp
        rw [hdrop]
        have hnil : substF (p0 :: pr) sub f [] = [] := by cases f <;> rfl
        rw [hnil, List.append_nil]
  | cons c u1 ih =>
    intro fuel hne hfuel
    obtain ⟨h1, h2⟩ : chStarts pat (c :: (u1 ++ pat)) = false ∧ noEarly pat u1 = true := by
      rw [noEarly] at hne
      exact ⟨by cases hx : chStarts pat (c :: (u1 ++ pat)) <;> simp [hx] at hne ⊢,
        by cases hx : noEarly pat u1 <;> simp [hx] at hne ⊢⟩
    cases fuel with
    | zero => exact absurd hfuel (by simp)
    | succ f =>
      show substF pat sub (f + 1) (c :: (u1 ++ pat)) = c :: (u1 ++ sub)
      rw [substF, if_neg (by simp [h1])]
      rw [ih f h2 (by simpa using hfuel)]

theorem formatTemplate_shape (tmpl : String) (pre : List Char)
    (hsplit : tmpl.data = pre ++ "{content}".data)
    (hearly : noEarly "{content}".data pre = true)
    (hno : chHas "{tone}".data tmpl.data = false)
    (tone content : String) :
    formatTemplate tmpl tone content = String.mk (pre ++ content.data) := by
  unfold formatTemplate substL
  rw [subst_no_occur "{tone}".data tone.data tmpl.data.length tmpl.data hno]
  rw [hsplit]
  rw [subst_append_end content.data (by decide) pre ((pre ++ "{content}".data).length)
    hearly (by simp)]

theorem tones_values {tone k : String} (h : lookupKey TONES tone = some k) :
    k = "professional" ∨ k = "casual" ∨ k = "promotional" := by
  simp only [TONES, lookupKey] at h
  split at h
  · exact Or.inl (Option.some.inj h).symm
  · split at h
    · exact Or.inr (Or.inl (Option.some.inj h).symm)
    · split at h
      · exact Or.inr (Or.inr (Option.some.inj h).symm)
      · cases h

theorem platforms_values {lab k : String} (h : lookupKey PLATFORMS lab = some k) :
    k = "linkedin" ∨ k = "instagram" ∨ k = "youtube" := by
  simp only [PLATFORMS, lookupKey] at h
  split at h
  · exact Or.inl (Option.some.inj h).symm
  · split at h
    · exact Or.inr (Or.inl (Option.some.inj h).symm)
    · split at h
      · exact Or.inr (Or.inr (Option.some.inj h).symm)
      · cases h

theorem template_shape (pid tkey : String)
    (hpid : pid = "linkedin" ∨ pid = "instagram" ∨ pid = "youtube")
    (htk : tkey = "professional" ∨ tkey = "casual" ∨ tkey = "promotional") :
    ∃ template_map tmpl,
      lookupKey TEMPLATES pid = some template_map ∧
      lookupKey template_map tkey = some tmpl ∧
      tmpl.data = tmpl.data.take (tmpl.data.length - 9) ++ "{content}".data ∧
      noEarly "{content}".data (tmpl.data.take (tmpl.data.length - 9)) = true ∧
      chHas "{tone}".data tmpl.data = false := by
  rcases hpid with rfl | rfl | rfl <;> rcases htk with rfl | rfl | rfl <;>
    exact ⟨_, _, rfl, rfl, by decide, by decide, by decide⟩

theorem promptsFor_shape {tmpl : String} {pre : List Char} (tkey : String)
    (segments : List String)
    (hsplit : tmpl.data = pre ++ "{content}".data)
    (hearly : noEarly "{content}".data pre = true)
    (hno : chHas "{tone}".data tmpl.data = false) :
    promptsFor tmpl tkey segments =
      (segments.filter (fun s => pyStrip s ≠ "")).map
        (fun s => String.mk pre ++ pyStrip s) := by
  unfold promptsFor
  have hfun : (fun s => formatTemplate tmpl tkey (pyStrip s)) =
      (fun s : String => String.mk pre ++ pyStrip s) := by
    funext s
    rw [formatTemplate_shape tmpl pre hsplit hearly hno tkey (pyStrip s)]
    rfl
  rw [hfun]

theorem make_inv {tone : String} {labels : List String} {pb : PromptBuilder}
    (h : PromptBuilder.make tone labels = .ok pb) :
    lookupKey TONES tone = some pb.tone_key ∧
      resolve_platforms labels = .ok pb.platform_ids := by
  unfold PromptBuilder.make at h
  cases ht : lookupKey TONES tone with
  | none => rw [ht] at h; cases h
  | some k =>
    rw [ht] at h
    cases hr : resolve_platforms labels with
    | error e => rw [hr] at h; cases h
    | ok pids =>
      rw [hr] at h
      injection h with h
      rw [← h]
      exact ⟨rfl, rfl⟩

theorem resolve_platforms_inv : ∀ (labels pids : List String),
    resolve_platforms labels = .ok pids →
    ∀ pid ∈ pids, ∃ lab, lookupKey PLATFORMS lab = some pid := by
  intro labels
  induction labels with
  | nil =>
    intro pids h pid hpid
    injection h with h
    rw [← h] at hpid
    cases hpid
  | cons lab rest ih =>
    intro pids h pid hpid
    unfold resolve_platforms at h
    cases hl : lookupKey PLATFORMS lab with
    | none => rw [hl] at h; cases h
    | some q =>
      rw [hl] at h
      cases hr : resolve_platforms rest with
      | error e => rw [hr] at h; cases h
      | ok qs =>
        rw [hr] at h
        injection h with h
        rw [← h] at hpid
        rcases List.mem_cons.mp hpid with h2 | h2
        · refine ⟨lab, ?_⟩
          rw [hl, h2]
        · exact ih qs hr pid h2

theorem resolve_platforms_error : ∀ (labels : List String) (label : String),
    label ∈ labels → lookupKey PLATFORMS label = none →
    ∃ bad, resolve_platforms labels = .error ("Unsupported platform: " ++ bad) ∧
      lookupKey PLATFORMS bad = none ∧ bad ∈ labels := by
  intro labels
  induction labels with
  | nil => intro label h _; cases h
  | cons l rest ih =>
    intro label hmem hnone
    cases hl : lookupKey PLATFORMS l with
    | none =>
      refine ⟨l, ?_, hl, List.mem_cons_self l rest⟩
      unfold resolve_platforms
      rw [hl]
    | some q =>
      have hlr : label ∈ rest := by
        rcases List.mem_cons.mp hmem with h | h
        · rw [h, hl] at hnone
          cases hnone
        · exact h
      obtain ⟨bad, hb1, hb2, hb3⟩ := ih label hlr hnone
      refine ⟨bad, ?_, hb2, List.mem_cons_of_mem l hb3⟩
      unfold resolve_platforms
      rw [hl, hb1]

theorem dictSet_mem_inv {α : Type} {d : List (String × α)} {k : String} {v : α}
    {e : String × α} (he : e ∈ dictSet d k v) : e ∈ d ∨ e = (k, v) := by
  unfold dictSet at he
  by_cases hany : d.any (fun x => x.1 = k)
  · rw [if_pos hany] at he
    obtain ⟨e0, he0, heq⟩ := List.mem_map.mp he
    by_cases hk : e0.1 = k
    · rw [if_pos hk] at heq
      right
      exact heq.symm
    · rw [if_neg hk] at heq
      left
      rw [← heq]
      exact he0
  · rw [if_neg hany] at he
    rcases List.mem_append.mp he with h | h
    · exact Or.inl h
    · rcases List.mem_cons.mp h with h2 | h2
      · exact Or.inr h2
      · cases h2

theorem dictSet_mem_self {α : Type} (d : List (String × α)) (k : String) (v : α) :
    (k, v) ∈ dictSet d k v := by
  unfold dictSet
  by_cases hany : d.any (fun x => x.1 = k)
  · rw [if_pos hany]
    rw [List.any_eq_true] at hany
    obtain ⟨e0, he0, hk⟩ := hany
    refine List.mem_map.mpr ⟨e0, he0, ?_⟩
    rw [if_pos (by simpa using hk)]
  · rw [if_neg hany]
    exact List.mem_append.mpr (Or.inr (List.mem_cons_self (k, v) []))

theorem dictSet_preserves_key {α : Type} {d : List (String × α)} {k2 : String}
    (h : ∃ w, (k2, w) ∈ d) (k : String) (v : α) : ∃ w, (k2, w) ∈ dictSet d k v := by
  by_cases hk : k2 = k
  · rw [hk]
    exact ⟨v, dictSet_mem_self d k v⟩
  · obtain ⟨w, hw⟩ := h
    unfold dictSet
    by_cases hany : d.any (fun x => x.1 = k)
    · rw [if_pos hany]
      refine ⟨w, List.mem_map.mpr ⟨(k2, w), hw, ?_⟩⟩
      rw [if_neg (by simpa using hk)]
    · rw [if_neg hany]
      exact ⟨w, List.mem_append.mpr (Or.inl hw)⟩

theorem buildPromptsGo_inv (tkey : String) (segments : List String) :
    ∀ (pids : List String) (acc out : List (String × List String)),
      (∀ pid ∈ pids, pid = "linkedin" ∨ pid = "instagram" ∨ pid = "youtube") →
      (tkey = "professional" ∨ tkey = "casual" ∨ tkey = "promotional") →
      buildPromptsGo tkey segments pids acc = .ok out →
      (∀ e ∈ acc, ∃ pre : String,
        e.2 = (segments.filter (fun s => pyStrip s ≠ "")).map (fun s => pre ++ pyStrip s)) →
      (∀ e ∈ out, ∃ pre : String,
        e.2 = (segments.filter (fun s => pyStrip s ≠ "")).map (fun s => pre ++ pyStrip s)) ∧
      (∀ pid, ((∃ w, (pid, w) ∈ acc) ∨ pid ∈ pids) → ∃ prompts, (pid, prompts) ∈ out) := by
  intro pids
  induction pids with
  | nil =>
    intro acc out _ _ h hacc
    injection h with h
    rw [← h]
    refine ⟨hacc, ?_⟩
    intro pid hpid
    rcases hpid with h1 | h1
    · exact h1
    · cases h1
  | cons pid0 rest ih =>
    intro acc out hval htk h hacc
    have hpid0 := hval pid0 (List.mem_cons_self pid0 rest)
    obtain ⟨tm, tmpl, hlook1, hlook2, hsplit, hearly, hno⟩ := template_shape pid0 tkey hpid0 htk
    unfold buildPromptsGo at h
    simp only [hlook1, hlook2] at h
    have hval2 : ∀ pid ∈ rest, pid = "linkedin" ∨ pid = "instagram" ∨ pid = "youtube" :=
      fun pid hpid => hval pid (List.mem_cons_of_mem pid0 hpid)
    have hP : ∃ pre : String,
        promptsFor tmpl tkey segments =
          (segments.filter (fun s => pyStrip s ≠ "")).map (fun s => pre ++ pyStrip s) := by
      refine ⟨String.mk (tmpl.data.take (tmpl.data.length - 9)), ?_⟩
      rw [promptsFor_shape tkey segments hsplit hearly hno]
    have hacc2 : ∀ e ∈ dictSet acc pid0 (promptsFor tmpl tkey segments), ∃ pre : String,
        e.2 = (segments.filter (fun s => pyStrip s ≠ "")).map (fun s => pre ++ pyStrip s) := by
      intro e he
      rcases dictSet_mem_inv he with h1 | h1
      · exact hacc e h1
      · rw [h1]
        exact hP
    obtain ⟨c1, c2⟩ := ih (dictSet acc pid0 (promptsFor tmpl tkey segments)) out hval2 htk h hacc2
    refine ⟨c1, ?_⟩
    intro pid hpid
    rcases hpid with h1 | h1
    · exact c2 pid (Or.inl (dictSet_preserves_key h1 pid0 (promptsFor tmpl tkey segments)))
    · rcases List.mem_cons.mp h1 with h2 | h2
      · refine c2 pid (Or.inl ?_)
        rw [h2]
        exact ⟨promptsFor tmpl tkey segments, dictSet_mem_self acc pid0 _⟩
      · exact c2 pid (Or.inr h2)

theorem buildPromptsGo_ok (tkey : String) (segments : List String)
    (htk : tkey = "professional" ∨ tkey = "casual" ∨ tkey = "promotional") :
    ∀ (pids : List String) (acc : List (String × List String)),
      (∀ pid ∈ pids, pid = "linkedin" ∨ pid = "instagram" ∨ pid = "youtube") →
      ∃ out, buildPromptsGo tkey segments pids acc = .ok out := by
  intro pids
  induction pids with
  | nil => intro acc _; exact ⟨acc, rfl⟩
  | cons pid0 rest ih =>
    intro acc hval
    have hpid0 := hval pid0 (List.mem_cons_self pid0 rest)
    obtain ⟨tm, tmpl, hlook1, hlook2, _, _, _⟩ := template_shape pid0 tkey hpid0 htk
    obtain ⟨out, hout⟩ := ih (dictSet acc pid0 (promptsFor tmpl tkey segments))
      (fun pid hpid => hval pid (List.mem_cons_of_mem pid0 hpid))
    refine ⟨out, ?_⟩
    unfold buildPromptsGo
    simp only [hlook1, hlook2]
    exact hout

/-- C5: for a successfully constructed builder, `build_prompts` yields for
every resolved platform an entry whose prompt list is exactly one prompt
per segment that is non-empty after stripping, in original segment order,
each prompt being the platform/tone template's fixed prefix followed by
the stripped segment substituted for the content parameter. -/
theorem claim_c5_build_prompts (tone : String) (labels : List String)
    (pb : PromptBuilder) (segments : List String) (out : List (String × List String))
    (hmk : PromptBuilder.make tone labels = .ok pb)
    (hbp : pb.build_prompts segments = .ok out) :
    (∀ pid ∈ pb.platform_ids, ∃ prompts, (pid, prompts) ∈ out) ∧
    (∀ pid prompts, (pid, prompts) ∈ out →
      prompts.length = (segments.filter (fun s => pyStrip s ≠ "")).length ∧
      ∃ pre : String,
        prompts = (segments.filter (fun s => pyStrip s ≠ "")).map
          (fun s => pre ++ pyStrip s)) := by
  obtain ⟨htone, hres⟩ := make_inv hmk
  have htk := tones_values htone
  have hval : ∀ pid ∈ pb.platform_ids,
      pid = "linkedin" ∨ pid = "instagram" ∨ pid = "youtube" := by
    intro pid hpid
    obtain ⟨lab, hlab⟩ := resolve_platforms_inv labels pb.platform_ids hres pid hpid
    exact platforms_values hlab
  obtain ⟨c1, c2⟩ := buildPromptsGo_inv pb.tone_key segments pb.platform_ids [] out hval htk
    hbp (by intro e he; cases he)
  constructor
  · intro pid hpid
    exact c2 pid (Or.inr hpid)
  · intro pid prompts hmem
    obtain ⟨pre, hpre⟩ := c1 (pid, prompts) hmem
    have hpre2 : prompts = (segments.filter (fun s => pyStrip s ≠ "")).map
        (fun s => pre ++ pyStrip s) := hpre
    refine ⟨?_, pre, hpre2⟩
    rw [hpre2]
    exact List.length_map _ _

/-- Witness for C5 at a concrete builder, platform and segment list: the
whitespace-only segment contributes no prompt. -/
theorem claim_c5_witness :
    ∃ out, PromptBuilder.build_prompts ⟨"professional", ["linkedin"]⟩ ["  hello  ", " "] =
        Except.ok out ∧
      (∃ prompts, ("linkedin", prompts) ∈ out) ∧
      (∀ pid prompts, (pid, prompts) ∈ out → prompts.length = 1) := by
  obtain ⟨out, hout⟩ := buildPromptsGo_ok "professional" ["  hello  ", " "] (Or.inl rfl)
    ["linkedin"] [] (by
      intro pid hpid
      rcases List.mem_cons.mp hpid with h | h
      · exact Or.inl h
      · cases h)
  have hbp : PromptBuilder.build_prompts ⟨"professional", ["linkedin"]⟩ ["  hello  ", " "] =
      Except.ok out := hout
  have h := claim_c5_build_prompts "Professional" ["LinkedIn"]
    ⟨"professional", ["linkedin"]⟩ ["  hello  ", " "] out rfl hbp
  refine ⟨out, hbp, ?_, ?_⟩
  · exact h.1 "linkedin" (List.mem_cons_self "linkedin" [])
  · intro pid prompts hmem
    have h2 := (h.2 pid prompts hmem).1
    rw [h2]
    decide

/-- C6: construction fails with the unsupported-tone error for any tone
label outside the tone table; with a valid tone it fails with an
unsupported-platform error naming an offending label whenever one of the
platform labels is outside the platform table; and for any successfully
constructed builder, `build_prompts` never fails, because every declared
(platform key, tone key) combination has a configured template. -/
theorem claim_c6_validation :
    (∀ tone labels, lookupKey TONES tone = none →
      PromptBuilder.make tone labels = .error ("Unsupported tone: " ++ tone)) ∧
    (∀ tone k labels label, lookupKey TONES tone = some k → label ∈ labels →
      lookupKey PLATFORMS label = none →
      ∃ bad, PromptBuilder.make tone labels = .error ("Unsupported platform: " ++ bad) ∧
        lookupKey PLATFORMS bad = none ∧ bad ∈ labels) ∧
    (∀ tone labels pb segments, PromptBuilder.make tone labels = .ok pb →
      ∃ out, pb.build_prompts segments = .ok out) := by
  refine ⟨?_, ?_, ?_⟩
  · intro tone labels hnone
    unfold PromptBuilder.make
    rw [hnone]
  · intro tone k labels label hk hmem hnone
    obtain ⟨bad, hb1, hb2, hb3⟩ := resolve_platforms_error labels label hmem hnone
    refine ⟨bad, ?_, hb2, hb3⟩
    unfold PromptBuilder.make
    rw [hk, hb1]
  · intro tone labels pb segments hmk
    obtain ⟨htone, hres⟩ := make_inv hmk
    have htk := tones_values htone
    have hval : ∀ pid ∈ pb.platform_ids,
        pid = "linkedin" ∨ pid = "instagram" ∨ pid = "youtube" := by
      intro pid hpid
      obtain ⟨lab, hlab⟩ := resolve_platforms_inv labels pb.platform_ids hres pid hpid
      exact platforms_values hlab
    exact buildPromptsGo_ok pb.tone_key segments htk pb.platform_ids [] hval

/-- Witness for C6: a concrete unknown tone label is rejected with the
expected message, and a fully valid request builds prompts without error. -/
theorem claim_c6_witness :
    PromptBuilder.make "Formal" ["LinkedIn"] = .error ("Unsupported tone: " ++ "Formal") ∧
    ∃ out, PromptBuilder.build_prompts ⟨"casual", ["youtube"]⟩ ["text"] = Except.ok out := by
  constructor
  · exact claim_c6_validation.1 "Formal" ["LinkedIn"] (by decide)
  · exact claim_c6_validation.2.2 "Casual" ["YouTube"] ⟨"casual", ["youtube"]⟩ ["text"] rfl
